import Mathlib

/-!
# Verification of the Project-Quarm-Boss-Tracker kill pipeline

A shallow embedding of the repository's log-ingestion / deduplication /
buffering / dispatch pipeline, translated from:

* `src/src/message_parser.py` — the `BossKillMessage` record,
* `src/src/main.py` — `_on_new_log_line`, `_process_log_line`,
  `_process_buffered_messages`, `_handle_duplicate_boss_selection`,
  `_process_boss_kill`, `SAME_KILL_WINDOW_SECONDS`,
* `src/src/boss_database.py` — `exists`, `get_bosses_by_name`,
  `increment_kill_count`,
* `src/src/discord_notifier.py` — the delivery worker `_worker` /
  `_send_message`,
* `src/src/log_monitor.py` — `LogMonitor._monitor_loop` / `_read_new_lines`.

Modelling conventions:

* Log timestamps have the fixed format `"%a %b %d %H:%M:%S %Y"` (1-second
  resolution); the code both compares the raw strings (exact kill keys) and
  their `strptime` values (time windows).  We abstract a timestamp to its
  parsed epoch value (an `Int`, in seconds); the `ValueError` branches for
  unparseable timestamps are therefore unreachable in the model.
* Wall-clock instants (`time.time()`) are modelled as `Int` seconds.
* The MD5 digest computed by the ingest gate is used only for equality
  tests, so the digest function is abstracted away: the seen-set stores a
  value of an arbitrary type with decidable equality.
* GUI concerns (Qt dialogs, sounds, tray notifications) are modelled only
  through their data outcome (a `DialogOutcome` for the duplicate-boss
  dialog); the external Discord duplicate checker's verdict is a `Bool`
  parameter; I/O exceptions (file locked or missing) are out of scope.
-/

/-- `BossKillMessage` from `message_parser.py`: a parsed kill candidate.
The `timestamp` is the parsed epoch value of the log timestamp (seconds);
`location = "Lockouts"` marks a lockout-sourced event. -/
structure BossKillMessage where
  timestamp : Int
  server : String
  player : String
  guild : String
  monster : String
  location : String
  deriving DecidableEq, Repr

/-- A tracked-target record of `boss_database.py` (`self.bosses` entries).
Only the fields the pipeline reads are modelled.  `lastKilled` is the
parsed epoch value of the recorded kill timestamp. -/
structure Boss where
  name : String
  note : String
  location : String
  enabled : Bool
  killCount : Nat
  lastKilled : Option Int
  deriving DecidableEq, Repr

/-- Python `str.lower()`, modelled per character (the names involved are
ASCII); defined over the character data so that it evaluates by kernel
reduction. -/
def py_lower (s : String) : String := ⟨s.data.map Char.toLower⟩

/-- Python `str.strip()`: remove leading and trailing whitespace. -/
def py_strip (s : String) : String :=
  ⟨((s.data.dropWhile Char.isWhitespace).reverse.dropWhile
      Char.isWhitespace).reverse⟩

/-- `BossDatabase.exists`: any record whose lowercased name matches. -/
def exists_boss (bosses : List Boss) (monster : String) : Bool :=
  bosses.any (fun b => py_lower b.name == py_lower monster)

/-- `BossDatabase.get_bosses_by_name`: all records with the given name,
case-insensitively, in database order. -/
def get_bosses_by_name (bosses : List Boss) (monster : String) : List Boss :=
  bosses.filter (fun b => py_lower b.name == py_lower monster)

/-- The in-place `boss['kill_count'] = old + 1; boss['last_killed'] = ...`
update of `BossDatabase.increment_kill_count` when a boss dict is passed
directly: the first record equal to the given one is replaced. -/
def replace_first (bosses : List Boss) (old new : Boss) : List Boss :=
  match bosses with
  | [] => []
  | b :: rest => if b = old then new :: rest else b :: replace_first rest old new

/-- `BossDatabase.increment_kill_count(monster, kill_timestamp, boss)` with
the boss dict provided (as at the call site in `_process_boss_kill`). -/
def increment_kill_count (bosses : List Boss) (boss : Boss) (ts : Int) : List Boss :=
  replace_first bosses boss
    { boss with killCount := boss.killCount + 1, lastKilled := some ts }

/-- Total of all kill counters in the registry (for counting increments). -/
def total_kill_count (bosses : List Boss) : Nat :=
  (bosses.map Boss.killCount).sum

/-- `SAME_KILL_WINDOW_SECONDS` from `main.py` (line 19). -/
def SAME_KILL_WINDOW_SECONDS : Int := 9

/-- The hardcoded `duplicate_boss_names` list of `main.py`. -/
def duplicate_boss_names : List String :=
  ["Thall Va Xakra", "Kaas Thox Xi Aten Ha Ra"]

/-- Association-list lookup, modelling Python `dict` access keyed by the
lowercased monster name. -/
def alist_lookup {α : Type} (l : List (String × α)) (k : String) : Option α :=
  (l.find? (fun p => p.1 == k)).map (fun p => p.2)

/-- Association-list update, modelling `d[k] = v`. -/
def alist_insert {α : Type} (l : List (String × α)) (k : String) (v : α) :
    List (String × α) :=
  match l with
  | [] => [(k, v)]
  | p :: rest => if p.1 == k then (k, v) :: rest else p :: alist_insert rest k v

/-- The last `n` elements of a list (Python `l[-n:]`). -/
def take_last {α : Type} (l : List α) (n : Nat) : List α :=
  (l.reverse.take n).reverse

/-- The `DedupEngine` state owned by `main.py`:
`recently_processed_kills` (exact kill keys `(timestamp, monster.lower())`),
`recent_kills_by_monster` (per-monster `(kill_time, location)` entries) and
`_last_discord_post_time_by_monster` (wall-clock post times). -/
structure DedupState where
  recentlyProcessedKills : List (Int × String)
  recentKillsByMonster : List (String × List (Int × String))
  lastDiscordPostTime : List (String × Int)
  deriving DecidableEq, Repr

/-- The empty dedup state at application start. -/
def DedupState.init : DedupState := ⟨[], [], []⟩

/-- Reason codes of the `_add_activity_entry` audit strings. -/
inductive AuditReason
  | duplicateExact
  | duplicateTimeWindow
  | duplicateCooldown
  | duplicateFromChannel
  | notPostedNoWebhook
  | posted
  | bufferSkipped (selectedLocation : String)
  | cancelled
  | disabled
  | locationMismatch
  | lateDuplicateExact
  | lateDuplicateTimeWindow
  | newBossDetected
  | errorBossNone
  deriving DecidableEq, Repr

/-- The observable outcome of one pipeline stage: messages handed to the
Discord notifier queue, audit entries, and the updated dedup state and
registry. -/
structure KillResult where
  dispatched : List BossKillMessage
  audits : List (BossKillMessage × AuditReason)
  state : DedupState
  registry : List Boss
  dialogCalls : Nat
  dialogCandidates : List (List Boss)
  newBossHandoff : Option BossKillMessage
  deriving DecidableEq, Repr

/-- A stopped pipeline run: one audit entry, nothing dispatched. -/
def KillResult.stopped (st : DedupState) (reg : List Boss)
    (p : BossKillMessage) (r : AuditReason) : KillResult :=
  ⟨[], [(p, r)], st, reg, 0, [], none⟩

/-- `_process_boss_kill(parsed, boss)` from `main.py`.

Parameters beyond the source's own: `webhookUrl` is the value of
`_get_webhook_url_for_post()` (the and the re-read `webhook_again` are the
same settings-file value in this model); `isDuplicateFromChannel` is the
Discord checker's `check_duplicate_sync` verdict (`False` when the checker
is unavailable); `wallNow` is `time.time()` at the call. -/
def process_boss_kill (webhookUrl : String) (isDuplicateFromChannel : Bool)
    (wallNow : Int) (st : DedupState) (reg : List Boss) (boss : Boss)
    (p : BossKillMessage) : KillResult :=
  let killKey : Int × String := (p.timestamp, py_lower p.monster)
  if killKey ∈ st.recentlyProcessedKills then
    -- "Duplicate detected (exact match), skipped"
    .stopped st reg p .duplicateExact
  else
    let monsterKey := py_lower p.monster
    let recent := (alist_lookup st.recentKillsByMonster monsterKey).getD []
    if recent.any (fun q => |p.timestamp - q.1| ≤ SAME_KILL_WINDOW_SECONDS) then
      -- "Duplicate (within ...s of previous kill)"
      .stopped st reg p .duplicateTimeWindow
    else
      -- mark as processed immediately after all duplicate checks pass
      let recent' := take_last
        (((recent ++ [(p.timestamp, p.location)]).filter
          (fun q => p.timestamp - 60 < q.1))) 3
      let st1 : DedupState :=
        { st with
          recentlyProcessedKills := killKey :: st.recentlyProcessedKills,
          recentKillsByMonster :=
            alist_insert st.recentKillsByMonster monsterKey recent' }
      -- wall-clock dedup guard
      let cooldown :=
        match alist_lookup st1.lastDiscordPostTime monsterKey with
        | some last => decide (wallNow - last < SAME_KILL_WINDOW_SECONDS)
        | none => false
      if cooldown then
        -- "Duplicate (posted ...s ago), skipped"
        .stopped st1 reg p .duplicateCooldown
      else if isDuplicateFromChannel then
        -- "Duplicate detected, skipped" (posted = False, no increment)
        .stopped st1 reg p .duplicateFromChannel
      else if webhookUrl = "" then
        -- "Not posted (no webhook URL in settings)"
        .stopped st1 reg p .notPostedNoWebhook
      else
        -- notify + record post time; then increment kill count (posted = True)
        let st2 := { st1 with
          lastDiscordPostTime :=
            alist_insert st1.lastDiscordPostTime monsterKey wallNow }
        ⟨[p], [(p, .posted)], st2, increment_kill_count reg boss p.timestamp,
          0, [], none⟩

/-- The outcome of executing the duplicate-boss selection dialog
(`DuplicateBossDialog` in `_handle_duplicate_boss_selection`):
the user accepts with a choice (an index into the listed candidates, or
no selection), rejects/cancels, or the dialog raises an exception
(including an import failure). -/
inductive DialogOutcome
  | accepted (choice : Option Nat)
  | rejected
  | errored
  deriving DecidableEq, Repr

/-- `_handle_duplicate_boss_selection(boss_name, duplicate_bosses, parsed)`
from `main.py`.  `accepted (some i)` returns the i-th candidate (an
out-of-range index is the "dialog accepted but no boss selected" log
branch, returning `None`); `rejected` returns `None`; on an exception the
handlers fall back to the first candidate.  (With an empty candidate list
the generic exception handler would itself raise while logging; every call
site passes at least two candidates.  We model the fallback as `head?`,
the `ImportError` handler's expression.) -/
def handle_duplicate_boss_selection (outcome : DialogOutcome)
    (candidates : List Boss) : Option Boss :=
  match outcome with
  | .accepted none => none
  | .accepted (some i) => candidates.get? i
  | .rejected => none
  | .errored => candidates.head?

/-- Winner selection of `_process_buffered_messages`: prefer the first
guild (zone) message (`location != "Lockouts"`), else the first lockout
message.  `none` only for an empty buffer. -/
def select_buffered_message (messages : List BossKillMessage) :
    Option BossKillMessage :=
  let guild_messages := messages.filter (fun m => m.location != "Lockouts")
  let lockout_messages := messages.filter (fun m => m.location == "Lockouts")
  (guild_messages.head?).orElse (fun _ => lockout_messages.head?)

/-- The skipped-duplicates list of `_process_buffered_messages`:
`[msg for msg in messages if msg != selected_message]`.  `BossKillMessage`
is a Python dataclass, so `!=` is field-by-field value inequality. -/
def skipped_buffered_messages (messages : List BossKillMessage)
    (selected : BossKillMessage) : List BossKillMessage :=
  messages.filter (fun m => m ≠ selected)

/-- The tail of `_process_buffered_messages` once a registry record
(`boss`) has been settled on for the selected message: the late location
check, the enabled check, and the hand-off to `_process_boss_kill`.
The location-mismatch audit entry is only added when the chosen boss is
enabled, exactly as in the source. -/
def buffered_continue (webhookUrl : String) (isDuplicateFromChannel : Bool)
    (wallNow : Int) (st : DedupState) (reg : List Boss)
    (all_bosses : List Boss) (boss : Boss) (selected : BossKillMessage) :
    KillResult :=
  let parsed_is_lockout : Bool := selected.location == "Lockouts"
  let boss_is_lockout : Bool := boss.location == "Lockouts"
  let is_known_dup := selected.monster ∈ duplicate_boss_names
  if all_bosses.length > 1 ∧ parsed_is_lockout ≠ boss_is_lockout ∧ ¬ is_known_dup then
    ⟨[], if boss.enabled then [(selected, .locationMismatch)] else [],
      st, reg, 0, [], none⟩
  else if boss.enabled then
    process_boss_kill webhookUrl isDuplicateFromChannel wallNow st reg boss selected
  else
    .stopped st reg selected .disabled

/-- `_process_buffered_messages(monster_key)` from `main.py`, applied to
the ordered list of messages buffered in the window (the buffer-existence
and `processed`-flag bookkeeping reduce, for a window that fires once, to
processing this list).  `dialog` is the behaviour of the duplicate-boss
selection dialog, should it be shown. -/
def process_buffered_messages (reg : List Boss) (dialog : DialogOutcome)
    (webhookUrl : String) (isDuplicateFromChannel : Bool) (wallNow : Int)
    (st : DedupState) (messages : List BossKillMessage) : KillResult :=
  match select_buffered_message messages with
  | none => ⟨[], [], st, reg, 0, [], none⟩
  | some selected =>
    let skipped := skipped_buffered_messages messages selected
    let skipAudits :=
      skipped.map (fun m => (m, AuditReason.bufferSkipped selected.location))
    let merge := fun (r : KillResult) =>
      { r with audits := skipAudits ++ r.audits }
    if ¬ exists_boss reg selected.monster then
      -- new-boss path: audited, then handed to `_handle_new_boss` (out of scope)
      merge ⟨[], [(selected, .newBossDetected)], st, reg, 0, [], some selected⟩
    else
      let all_bosses := get_bosses_by_name reg selected.monster
      let bosses_with_notes := all_bosses.filter (fun b => py_strip b.note ≠ "")
      let has_multiple_variants := bosses_with_notes.length > 1
      let is_known_duplicate := selected.monster ∈ duplicate_boss_names
      if all_bosses.length > 1 ∧ (has_multiple_variants ∨ is_known_duplicate) then
        match handle_duplicate_boss_selection dialog all_bosses with
        | none =>
          -- "Kill detected but cancelled (duplicate name selection)"
          merge ⟨[], [(selected, .cancelled)], st, reg, 1, [all_bosses], none⟩
        | some boss =>
          let r := buffered_continue webhookUrl isDuplicateFromChannel wallNow
            st reg all_bosses boss selected
          merge { r with dialogCalls := 1, dialogCandidates := [all_bosses] }
      else
        match all_bosses with
        | [boss] =>
          merge (buffered_continue webhookUrl isDuplicateFromChannel wallNow
            st reg all_bosses boss selected)
        | _ =>
          -- `boss = None`: "Error: Boss not found or selection cancelled"
          merge ⟨[], [(selected, .errorBossNone)], st, reg, 0, [], none⟩

/-- The early location-type check of `_process_log_line` (before
buffering).  Returns `some auditIt` when the line is rejected there
("Location mismatch (early check)"); `auditIt` says whether an activity
entry is added (only when the first matching boss is enabled). -/
def early_location_reject (reg : List Boss) (p : BossKillMessage) :
    Option Bool :=
  let all_bosses := get_bosses_by_name reg p.monster
  if p.monster ∈ duplicate_boss_names ∧ all_bosses ≠ [] then none
  else if exists_boss reg p.monster then
    let parsed_is_lockout : Bool := p.location == "Lockouts"
    if all_bosses.length > 1 ∧
        ¬ all_bosses.any (fun b => (b.location == "Lockouts") == parsed_is_lockout) then
      some (match all_bosses.head? with | some b => b.enabled | none => false)
    else none
  else none

/-- `_process_log_line` for a parsed event arriving while no buffer window
is open for its monster, composed with the deadline flush that
`_process_buffered_messages` performs 3 s later: the exact-kill-key check,
the early location check, the late-duplicate pre-buffer check
("kill already posted ...s ago, skipping (no new buffer)"), then a
single-message window that fires at wall-clock time `flushWall`.
(The `recently_processed_lines` bookkeeping is the ingest gate, modelled
separately; its size-ceiling cleanup does not affect kill decisions.) -/
def process_event_standalone (reg : List Boss) (dialog : DialogOutcome)
    (webhookUrl : String) (isDuplicateFromChannel : Bool) (flushWall : Int)
    (st : DedupState) (p : BossKillMessage) : KillResult :=
  if (p.timestamp, py_lower p.monster) ∈ st.recentlyProcessedKills then
    .stopped st reg p .duplicateExact
  else match early_location_reject reg p with
  | some auditIt =>
      ⟨[], if auditIt then [(p, .locationMismatch)] else [], st, reg, 0, [], none⟩
  | none =>
      let recent := (alist_lookup st.recentKillsByMonster (py_lower p.monster)).getD []
      if recent.any (fun q => |p.timestamp - q.1| ≤ SAME_KILL_WINDOW_SECONDS) then
        .stopped st reg p .lateDuplicateTimeWindow
      else
        process_buffered_messages reg dialog webhookUrl isDuplicateFromChannel
          flushWall st [p]

/-! ## Ingest gate (`_on_new_log_line` and the seen-lines cleanup) -/

/-- `_on_new_log_line(line)` from `main.py`: hash the line, drop it
silently when the hash is already in `recently_processed_lines`, otherwise
mark it seen and queue it.  The MD5 digest is used only for equality, so
the digest values are abstracted to an arbitrary type with decidable
equality; `recently_processed_lines` is a Python `set`, modelled as a
`Finset`.  The returned `Option` is the queued line (`none` = dropped). -/
def on_new_log_line {α : Type} [DecidableEq α] (seen : Finset α) (line : α) :
    Option α × Finset α :=
  if line ∈ seen then (none, seen) else (some line, insert line seen)

/-- The `recently_processed_lines` size-ceiling cleanup in
`_process_log_line`: `entries_list = list(self.recently_processed_lines)`
(an enumeration of the set in the hash table's unspecified iteration
order), then keep `entries_list[len(entries_list)//2:]` once the size
exceeds 2000. -/
def cleanup_recently_processed_lines {α : Type} (entries_list : List α) :
    List α :=
  if entries_list.length > 2000 then
    entries_list.drop (entries_list.length / 2)
  else entries_list

/-- `enum` is a possible value of `list(s)` for the Python set `s`: some
duplicate-free enumeration of its elements, in an order the language gives
no guarantee about. -/
def IsEnumerationOf {α : Type} [DecidableEq α] (enum : List α)
    (s : Finset α) : Prop :=
  enum.Nodup ∧ enum.toFinset = s

/-! ## Delivery worker (`DiscordNotifier._worker` / `_send_message`) -/

/-- An item of `DiscordNotifier.message_queue`: `(webhook_url, message)`. -/
structure QueueItem where
  webhookUrl : String
  message : String
  deriving DecidableEq, Repr

/-- The result of the `requests.post` in `_send_message`: success, or a
`RequestException` (which `_send_message` catches and logs). -/
inductive SendResult
  | ok
  | failed
  deriving DecidableEq, Repr

/-- `DiscordNotifier._worker`: dequeue sequentially (a `None` item is the
stop signal and breaks the loop), skip items with a blank webhook URL, and
call `_send_message` once per remaining item.  `send` is the network's
behaviour; `_send_message` swallows the failure, so the worker's trace is
the list of `(item, outcome)` send attempts, in queue order. -/
def worker_run (send : QueueItem → SendResult) :
    List (Option QueueItem) → List (QueueItem × SendResult)
  | [] => []
  | none :: _ => []
  | some it :: rest =>
    if py_strip it.webhookUrl = "" then worker_run send rest
    else (it, send it) :: worker_run send rest

/-- The queue contents up to (excluding) the first stop signal. -/
def queue_items_until_stop : List (Option QueueItem) → List QueueItem
  | [] => []
  | none :: _ => []
  | some it :: rest => it :: queue_items_until_stop rest

/-! ## Log tailer (`LogMonitor`) -/

/-- One file of the watched directory at some instant: name, content
(character list) and modification time. -/
structure FileEntry where
  name : String
  content : List Char
  mtime : Int
  deriving DecidableEq, Repr

/-- `LogMonitor._get_active_file`: the most recently modified matching
file — Python's `max`, which keeps the first item among ties. -/
def get_active_file (log_files : List FileEntry) : Option FileEntry :=
  log_files.foldl
    (fun acc f =>
      match acc with
      | none => some f
      | some g => if f.mtime > g.mtime then some f else some g)
    none

/-- The mutable state of `LogMonitor._monitor_loop`: `self.active_file`,
`self.file_positions`, and the local `active_file_check_counter`. -/
structure MonitorState where
  active_file : Option String
  file_positions : List (String × Nat)
  check_counter : Nat
  deriving DecidableEq, Repr

/-- Monitor state at thread start. -/
def MonitorState.init : MonitorState := ⟨none, [], 0⟩

/-- Observable actions of the tailer: an activation seek
(`f.seek(0, 2)`, recording the end-of-file position) and a read of the
byte range `[fromPos, toPos)` emitting `lines`. -/
inductive MonitorEvent
  | activated (file : String) (pos : Nat)
  | readChunk (file : String) (fromPos toPos : Nat) (lines : List (List Char))
  deriving DecidableEq, Repr

def MonitorEvent.file : MonitorEvent → String
  | .activated f _ => f
  | .readChunk f _ _ _ => f

/-- Lower end of the byte range an event touches. -/
def MonitorEvent.lo : MonitorEvent → Nat
  | .activated _ p => p
  | .readChunk _ a _ _ => a

/-- Upper end of the byte range an event touches. -/
def MonitorEvent.hi : MonitorEvent → Nat
  | .activated _ p => p
  | .readChunk _ _ b _ => b

/-- Lines emitted by an event. -/
def MonitorEvent.linesOf : MonitorEvent → List (List Char)
  | .activated _ _ => []
  | .readChunk _ _ _ ls => ls

/-- The `f.readline()` loop of `_read_new_lines`: split the remaining data
into chunks, each ending at a `'\n'`; a final chunk without a newline (the
partial trailing line at end-of-file) is returned as-is by `readline`. -/
def readline_chunks_go (acc : List Char) : List Char → List (List Char)
  | [] => if acc = [] then [] else [acc.reverse]
  | c :: rest =>
    if c = '\n' then (acc.reverse ++ ['\n']) :: readline_chunks_go [] rest
    else readline_chunks_go (c :: acc) rest

/-- All `readline` results for the given data, in order. -/
def readline_chunks (s : List Char) : List (List Char) :=
  readline_chunks_go [] s

/-- `line.rstrip('\n\r')`. -/
def rstrip_newlines (l : List Char) : List Char :=
  (l.reverse.dropWhile (fun c => c == '\n' || c == '\r')).reverse

/-- The lines `_read_new_lines` hands to `on_new_line` for newly read
data: each `readline` chunk, stripped of trailing CR/LF, dropped when
empty (`if line:`). -/
def emitted_lines (data : List Char) : List (List Char) :=
  (readline_chunks data).filterMap (fun ch =>
    let t := rstrip_newlines ch
    if t.isEmpty then none else some t)

/-- First directory entry with the given name (`filepath` resolution). -/
def find_file (fs : List FileEntry) (name : String) : Option FileEntry :=
  fs.find? (fun f => f.name == name)

/-- `LogMonitor._read_new_lines(filepath)`: seek to the saved position
(default 0), read every available line including a partial trailing one,
and save `f.tell()` (the end of file, or the original position if it was
already past the end) as the new position.  Skipped silently when the file
is absent (the `exists()` guard of the loop). -/
def read_new_lines (fs : List FileEntry) (st : MonitorState) (name : String) :
    List MonitorEvent × MonitorState :=
  match find_file fs name with
  | none => ([], st)
  | some f =>
    let current_pos := (alist_lookup st.file_positions name).getD 0
    let data := f.content.drop current_pos
    let new_pos := max current_pos f.content.length
    ([.readChunk name current_pos new_pos (emitted_lines data)],
     { st with file_positions := alist_insert st.file_positions name new_pos })

/-- One iteration of `LogMonitor._monitor_loop` against the directory
snapshot `fs`: every 10th tick (or while no file is active) re-derive the
active file and, if it changed, seek its cursor to end-of-file — except
that the whole `open`/`seek(0, 2)`/`tell` is wrapped in a `try`, and on
any exception (file transiently locked or unreadable) the handler falls
back to `self.file_positions[active_file] = 0`.  `seekOk` is whether the
end-seek succeeds on this tick; the recorded cursor is the end of file on
success and 0 on failure.  Then read new lines from the active file.
(A read-time `IOError` in `_read_new_lines` skips the iteration, leaving
state untouched and emitting nothing — observationally the missing-file
branch of `read_new_lines`.) -/
def monitor_tick (fs : List FileEntry) (seekOk : Bool) (st : MonitorState) :
    List MonitorEvent × MonitorState :=
  let counter' := st.check_counter + 1
  let (evs1, st1) :=
    if counter' ≥ 10 ∨ st.active_file = none then
      match get_active_file fs with
      | some f =>
        if st.active_file ≠ some f.name then
          ([MonitorEvent.activated f.name (cond seekOk f.content.length 0)],
           { active_file := some f.name,
             file_positions :=
               alist_insert st.file_positions f.name
                 (cond seekOk f.content.length 0),
             check_counter := 0 })
        else ([], { st with check_counter := 0 })
      | none => ([], { st with active_file := none, check_counter := 0 })
    else ([], { st with check_counter := counter' })
  match st1.active_file with
  | some name =>
    let (evs2, st2) := read_new_lines fs st1 name
    (evs1 ++ evs2, st2)
  | none => (evs1, st1)

/-- Run the monitor loop over a trace of ticks — each a directory
snapshot paired with that tick's end-seek outcome — collecting all
events. -/
def run_monitor_from (st : MonitorState) :
    List (List FileEntry × Bool) → List MonitorEvent
  | [] => []
  | t :: rest =>
    (monitor_tick t.1 t.2 st).1 ++
      run_monitor_from (monitor_tick t.1 t.2 st).2 rest

/-- The monitor run from thread start. -/
def run_monitor (trace : List (List FileEntry × Bool)) : List MonitorEvent :=
  run_monitor_from MonitorState.init trace

/-- Directory snapshot sanity: file names are unique. -/
def FileOk (fs : List FileEntry) : Prop :=
  (fs.map FileEntry.name).Nodup

/-- Between consecutive snapshots files are only appended to: every file
persists, with its old content a prefix of the new. -/
def grows (fs fs' : List FileEntry) : Prop :=
  ∀ f ∈ fs, ∃ f' ∈ fs', f'.name = f.name ∧ f.content <+: f'.content

/-- Every snapshot of the trace is sane. -/
def WellFormedTrace (trace : List (List FileEntry × Bool)) : Prop :=
  ∀ t ∈ trace, FileOk t.1

/-- The trace's snapshots are append-only. -/
def AppendOnlyTrace (trace : List (List FileEntry × Bool)) : Prop :=
  (trace.map Prod.fst).Chain' grows

/-- No end-seek fails anywhere in the trace (no transient I/O failure at
an activation). -/
def AllSeeksOk (trace : List (List FileEntry × Bool)) : Prop :=
  ∀ t ∈ trace, t.2 = true

/-- Ordering discipline between two tailer events: when they touch the same
file, the earlier event's byte range ends no later than the later one
begins (so no byte — and hence no line — is ever consumed twice, and
nothing before an activation seek is ever read). -/
def MonitorRel (e1 e2 : MonitorEvent) : Prop :=
  e1.file = e2.file → e1.hi ≤ e2.lo

/-- Saved cursors never point past the current end of their file. -/
def PosBound (fs : List FileEntry) (st : MonitorState) : Prop :=
  ∀ name p, alist_lookup st.file_positions name = some p →
    ∀ f ∈ fs, f.name = name → p ≤ f.content.length

/-- Saved cursors only exist for files present in the directory. -/
def PosPresent (fs : List FileEntry) (st : MonitorState) : Prop :=
  ∀ name p, alist_lookup st.file_positions name = some p →
    ∃ f ∈ fs, f.name = name

/-- Every past event ends at or before the saved cursor of its file. -/
def EvBound (st : MonitorState) (evs : List MonitorEvent) : Prop :=
  ∀ e ∈ evs, ∃ p, alist_lookup st.file_positions e.file = some p ∧ e.hi ≤ p

/-- The monitor-loop invariant tying state, directory and event history. -/
def MonInv (fs : List FileEntry) (st : MonitorState)
    (evs : List MonitorEvent) : Prop :=
  PosBound fs st ∧ PosPresent fs st ∧ EvBound st evs

/-- Whenever a file is active, a cursor has been recorded for it. -/
def ActivePositioned (st : MonitorState) : Prop :=
  ∀ n, st.active_file = some n →
    ∃ p, alist_lookup st.file_positions n = some p

/-- The file `name` holds the fixed content `c` throughout the trace
(a pre-existing, never-appended file). -/
def StaticContent (trace : List (List FileEntry × Bool)) (name : String)
    (c : List Char) : Prop :=
  ∀ t ∈ trace, ∀ f ∈ t.1, f.name = name → f.content = c

instance (fs : List FileEntry) : Decidable (FileOk fs) :=
  inferInstanceAs (Decidable ((fs.map FileEntry.name).Nodup))

instance : DecidableRel grows := fun fs fs' =>
  inferInstanceAs (Decidable (∀ f ∈ fs, ∃ f' ∈ fs',
    f'.name = f.name ∧ f.content <+: f'.content))

instance (trace : List (List FileEntry × Bool)) :
    Decidable (WellFormedTrace trace) :=
  inferInstanceAs (Decidable (∀ t ∈ trace, FileOk t.1))

instance (trace : List (List FileEntry × Bool)) :
    Decidable (AppendOnlyTrace trace) :=
  inferInstanceAs (Decidable ((trace.map Prod.fst).Chain' grows))

instance (trace : List (List FileEntry × Bool)) :
    Decidable (AllSeeksOk trace) :=
  inferInstanceAs (Decidable (∀ t ∈ trace, t.2 = true))

instance (trace : List (List FileEntry × Bool)) (name : String)
    (c : List Char) : Decidable (StaticContent trace name c) :=
  inferInstanceAs (Decidable (∀ t ∈ trace, ∀ f ∈ t.1,
    f.name = name → f.content = c))

/-! ## Concrete example data used by counterexamples and witnesses -/

/-- A single enabled tracked target. -/
def bossSev : Boss := ⟨"Severilous", "", "The Emerald Jungle", true, 0, none⟩

/-- A zone-sourced kill event for `bossSev`. -/
def mZoneSev : BossKillMessage :=
  ⟨100, "Druzzil Ro", "Xanax", "Guild", "Severilous", "The Emerald Jungle"⟩

/-- A lockout-sourced kill event for `bossSev`. -/
def mLockSev : BossKillMessage :=
  ⟨102, "", "", "", "Severilous", "Lockouts"⟩

/-- Two same-named tracked targets with no annotations (a zone entry and a
lockout entry), for a name outside the hardcoded duplicate list. -/
def bossFooZone : Boss := ⟨"Foo", "", "ZoneA", true, 0, none⟩

def bossFooLock : Boss := ⟨"Foo", "", "Lockouts", true, 0, none⟩

/-- A zone-sourced kill event for the `Foo` pair. -/
def mZoneFoo : BossKillMessage := ⟨50, "S", "P", "G", "Foo", "ZoneA"⟩

/-- The annotated duplicate pair for the hardcoded name `Thall Va Xakra`. -/
def bossThallN : Boss := ⟨"Thall Va Xakra", "F1 North", "Vex Thal", true, 0, none⟩

def bossThallS : Boss := ⟨"Thall Va Xakra", "F1 South", "Vex Thal", true, 0, none⟩

/-- A zone-sourced kill event for `Thall Va Xakra`. -/
def mZoneThall : BossKillMessage :=
  ⟨200, "Druzzil Ro", "Xanax", "Guild", "Thall Va Xakra", "Vex Thal"⟩

/-- The two-event replay scenario of the time-window property: both events
run through the standalone path (`process_event_standalone`), the second
against the first's resulting state and registry. -/
def two_kill_run (reg : List Boss) (dialog₁ dialog₂ : DialogOutcome)
    (webhookUrl : String) (u1 u2 : Int) (e1 e2 : BossKillMessage) :
    KillResult × KillResult :=
  let r1 := process_event_standalone reg dialog₁ webhookUrl false u1
    DedupState.init e1
  (r1, process_event_standalone r1.registry dialog₂ webhookUrl false u2
    r1.state e2)

/-- Recogniser for buffer-skip audit entries. -/
def AuditReason.isBufferSkipped : AuditReason → Bool
  | .bufferSkipped _ => true
  | _ => false

/-- The insertion order of the seen-lines history in the C8 scenario:
entry `i` was inserted `i`-th (hash values abstracted to `Nat`). -/
def c8_insertion_order : List Nat := List.range 2001

/-- One admissible iteration order of the same Python set: the hash table
enumerates entry 1000 first and entry 0 in the middle. -/
def c8_enumeration : List Nat :=
  ([1000] ++ (List.range 999).map (fun i => i + 1)) ++
    ([0] ++ (List.range 1000).map (fun i => i + 1001))

/-- The static pre-existing file of the C7 counterexample: content `abc`
with no trailing newline. -/
def c7_file : FileEntry := ⟨"log", ['a', 'b', 'c'], 5⟩

/-- Monitor state with the cursor of `log` at offset 0. -/
def c7_state : MonitorState := ⟨some "log", [("log", 0)], 3⟩

/-- A second, later zone-sourced kill of `Severilous` (10 s after
`mZoneSev`). -/
def mZoneSev10 : BossKillMessage :=
  ⟨110, "Druzzil Ro", "Xanax", "Guild", "Severilous", "The Emerald Jungle"⟩

/-- A three-tick directory trace with successful end-seeks: a pre-existing
log rotates to a new one that then grows. -/
def c4_trace : List (List FileEntry × Bool) :=
  [([⟨"old.txt", ['a', '\n'], 1⟩], true),
   ([⟨"old.txt", ['a', '\n'], 1⟩, ⟨"new.txt", ['x', 'y', '\n'], 5⟩], true),
   ([⟨"old.txt", ['a', '\n'], 1⟩,
     ⟨"new.txt", ['x', 'y', '\n', 'z', '\n'], 6⟩], true)]

/-- A one-tick trace whose activation end-seek fails: the pre-existing
two-line log is activated through the `except` fallback, which records
cursor 0. -/
def c4_fail_trace : List (List FileEntry × Bool) :=
  [([⟨"log", ['a', '\n', 'b', '\n'], 1⟩], false)]

/-! ## General helper lemmas -/

theorem exists_boss_iff (reg : List Boss) (m : String) :
    exists_boss reg m = true ↔ get_bosses_by_name reg m ≠ [] := by
  constructor
  · intro h hcon
    obtain ⟨b, hb, hp⟩ := List.any_eq_true.mp h
    have hmem : b ∈ get_bosses_by_name reg m := List.mem_filter.mpr ⟨hb, hp⟩
    rw [hcon] at hmem
    exact List.not_mem_nil b hmem
  · intro h
    match hh : get_bosses_by_name reg m with
    | [] => exact absurd hh h
    | b :: rest =>
      have hmem : b ∈ get_bosses_by_name reg m := by rw [hh]; exact List.mem_cons_self b rest
      have := List.mem_filter.mp hmem
      exact List.any_eq_true.mpr ⟨b, this.1, this.2⟩

theorem get_bosses_sublist (reg : List Boss) (m : String) :
    (get_bosses_by_name reg m).Sublist reg :=
  List.filter_sublist reg

theorem handle_selection_mem (outcome : DialogOutcome) (cands : List Boss)
    (b : Boss) (h : handle_duplicate_boss_selection outcome cands = some b) :
    b ∈ cands := by
  cases outcome with
  | accepted choice =>
    cases choice with
    | none => simp [handle_duplicate_boss_selection] at h
    | some i =>
      simp only [handle_duplicate_boss_selection] at h
      exact List.get?_mem h
  | rejected => simp [handle_duplicate_boss_selection] at h
  | errored =>
    simp only [handle_duplicate_boss_selection] at h
    exact List.mem_of_mem_head? h

theorem total_kill_count_increment (reg : List Boss) (b : Boss) (ts : Int)
    (hmem : b ∈ reg) :
    total_kill_count (increment_kill_count reg b ts) =
      total_kill_count reg + 1 := by
  rw [increment_kill_count]
  induction reg with
  | nil => exact absurd hmem (List.not_mem_nil b)
  | cons x rest ih =>
    by_cases hx : x = b
    · subst hx
      simp [replace_first, total_kill_count]
      ring
    · have hmem' : b ∈ rest := by
        rcases List.mem_cons.mp hmem with h | h
        · exact absurd h.symm hx
        · exact h
      have hih := ih hmem'
      simp only [replace_first, if_neg hx, total_kill_count, List.map_cons,
        List.sum_cons] at hih ⊢
      omega

theorem process_boss_kill_audit_shape (webhookUrl : String) (isDup : Bool)
    (now : Int) (st : DedupState) (reg : List Boss) (boss : Boss)
    (p : BossKillMessage) :
    ∀ pr ∈ (process_boss_kill webhookUrl isDup now st reg boss p).audits,
      pr.2 = AuditReason.duplicateExact ∨ pr.2 = .duplicateTimeWindow ∨
      pr.2 = .duplicateCooldown ∨ pr.2 = .duplicateFromChannel ∨
      pr.2 = .notPostedNoWebhook ∨ pr.2 = .posted := by
  intro pr hpr
  simp only [process_boss_kill, KillResult.stopped] at hpr
  split at hpr
  · simp at hpr; simp [hpr]
  · split at hpr
    · simp at hpr; simp [hpr]
    · split at hpr
      · simp at hpr; simp [hpr]
      · split at hpr
        · simp at hpr; simp [hpr]
        · split at hpr
          · simp at hpr; simp [hpr]
          · simp at hpr; simp [hpr]

theorem buffered_continue_audit_shape (webhookUrl : String) (isDup : Bool)
    (now : Int) (st : DedupState) (reg all_bosses : List Boss) (boss : Boss)
    (sel : BossKillMessage) :
    ∀ pr ∈ (buffered_continue webhookUrl isDup now st reg all_bosses boss
        sel).audits,
      pr.2 = AuditReason.duplicateExact ∨ pr.2 = .duplicateTimeWindow ∨
      pr.2 = .duplicateCooldown ∨ pr.2 = .duplicateFromChannel ∨
      pr.2 = .notPostedNoWebhook ∨ pr.2 = .posted ∨
      pr.2 = .locationMismatch ∨ pr.2 = .disabled := by
  intro pr hpr
  simp only [buffered_continue, KillResult.stopped] at hpr
  split at hpr
  · split at hpr <;> simp at hpr <;> simp [hpr]
  · split at hpr
    · have := process_boss_kill_audit_shape webhookUrl isDup now st reg boss sel pr hpr
      tauto
    · simp at hpr; simp [hpr]

theorem process_boss_kill_dispatched (webhookUrl : String) (isDup : Bool)
    (now : Int) (st : DedupState) (reg : List Boss) (boss : Boss)
    (p : BossKillMessage) :
    (process_boss_kill webhookUrl isDup now st reg boss p).dispatched = [] ∨
    (process_boss_kill webhookUrl isDup now st reg boss p).dispatched = [p] := by
  simp only [process_boss_kill, KillResult.stopped]
  split
  · simp
  · split
    · simp
    · split
      · simp
      · split
        · simp
        · split
          · simp
          · simp

theorem process_boss_kill_total (webhookUrl : String) (isDup : Bool)
    (now : Int) (st : DedupState) (reg : List Boss) (boss : Boss)
    (p : BossKillMessage) (hmem : boss ∈ reg) :
    total_kill_count (process_boss_kill webhookUrl isDup now st reg boss
        p).registry =
      total_kill_count reg +
        (process_boss_kill webhookUrl isDup now st reg boss p).dispatched.length := by
  simp only [process_boss_kill, KillResult.stopped]
  split
  · simp
  · split
    · simp
    · split
      · simp
      · split
        · simp
        · split
          · simp
          · simp [total_kill_count_increment reg boss p.timestamp hmem]

theorem buffered_continue_total (webhookUrl : String) (isDup : Bool)
    (now : Int) (st : DedupState) (reg all_bosses : List Boss) (boss : Boss)
    (sel : BossKillMessage) (hmem : boss ∈ reg) :
    total_kill_count (buffered_continue webhookUrl isDup now st reg all_bosses
        boss sel).registry =
      total_kill_count reg +
        (buffered_continue webhookUrl isDup now st reg all_bosses boss
          sel).dispatched.length ∧
    (buffered_continue webhookUrl isDup now st reg all_bosses boss
        sel).dispatched.length ≤ 1 := by
  simp only [buffered_continue, KillResult.stopped]
  split
  · simp
  · split
    · refine ⟨process_boss_kill_total webhookUrl isDup now st reg boss sel hmem, ?_⟩
      rcases process_boss_kill_dispatched webhookUrl isDup now st reg boss sel with h | h <;>
        simp [h]
    · simp

/-- Claim C9: every queued delivery message whose send fails is logged and
dropped — it is never re-enqueued and no second send attempt is made for
it, and the worker continues with subsequent queued messages.  Formally:
the worker's send-attempt trace is exactly one attempt per queued item
with a non-blank webhook URL (up to the stop signal), in queue order,
regardless of which sends fail — so outcomes never feed back into the
queue. -/
theorem C9_delivery_failures_dropped (send : QueueItem → SendResult)
    (q : List (Option QueueItem)) :
    worker_run send q =
      ((queue_items_until_stop q).filter
        (fun it => py_strip it.webhookUrl != "")).map (fun it => (it, send it)) := by
  induction q with
  | nil => rfl
  | cons h t ih =>
    cases h with
    | none => rfl
    | some it =>
      by_cases hw : py_strip it.webhookUrl = ""
      · simp [worker_run, queue_items_until_stop, List.filter_cons, hw, ih]
      · simp [worker_run, queue_items_until_stop, List.filter_cons, hw, ih]

/-- Claim C10 (implicit): if showing the duplicate-target selection dialog
fails with an exception (including an import failure), the resolver
returns the first candidate record whenever the candidate list is
non-empty, so the kill is processed against the first same-named tracked
target rather than being reported as cancelled (no "cancelled" audit entry
can arise from an errored dialog). -/
theorem C10_dialog_exception_fallback :
    (∀ (cands : List Boss) (hne : cands ≠ []),
      handle_duplicate_boss_selection .errored cands = some (cands.head hne)) ∧
    (∀ (reg : List Boss) (webhookUrl : String) (isDup : Bool) (now : Int)
      (st : DedupState) (msgs : List BossKillMessage),
      ∀ pr ∈ (process_buffered_messages reg .errored webhookUrl isDup now st
          msgs).audits, pr.2 ≠ AuditReason.cancelled) := by
  constructor
  · intro cands hne
    simp [handle_duplicate_boss_selection, List.head?_eq_head, hne]
  · intro reg webhookUrl isDup now st msgs pr hpr
    simp only [process_buffered_messages] at hpr
    split at hpr
    · simp at hpr
    · rename_i sel hsel
      split at hpr
      · -- new-boss branch
        simp only [List.mem_append, List.mem_map, List.mem_singleton] at hpr
        rcases hpr with ⟨m, _, heq⟩ | heq
        · rw [← heq]; simp
        · rw [heq]; simp
      · split at hpr
        · -- duplicate-dialog branch
          rename_i htrig
          split at hpr
          · rename_i hnone
            exfalso
            have hnil : get_bosses_by_name reg sel.monster = [] := by
              simpa [handle_duplicate_boss_selection] using hnone
            rw [hnil] at htrig
            simp at htrig
          · rename_i boss hsome
            simp only [List.mem_append, List.mem_map] at hpr
            rcases hpr with ⟨m, _, heq⟩ | hpr
            · rw [← heq]; simp
            · have := buffered_continue_audit_shape webhookUrl isDup now st reg
                (get_bosses_by_name reg sel.monster) boss sel pr (by simpa using hpr)
              rcases this with h | h | h | h | h | h | h | h
              all_goals simp [h]
        · split at hpr
          · rename_i boss hone
            simp only [List.mem_append, List.mem_map] at hpr
            rcases hpr with ⟨m, _, heq⟩ | hpr
            · rw [← heq]; simp
            · have := buffered_continue_audit_shape webhookUrl isDup now st reg
                (get_bosses_by_name reg sel.monster) boss sel pr (by simpa using hpr)
              rcases this with h | h | h | h | h | h | h | h
              all_goals simp [h]
          · simp only [List.mem_append, List.mem_map, List.mem_singleton] at hpr
            rcases hpr with ⟨m, _, heq⟩ | heq
            · rw [← heq]; simp
            · rw [heq]; simp

theorem C10_witness :
    handle_duplicate_boss_selection .errored [bossFooZone, bossFooLock] =
      some bossFooZone ∧
    ∀ pr ∈ (process_buffered_messages [bossFooZone, bossFooLock] .errored "W"
        false 1000 DedupState.init [mZoneFoo]).audits,
      pr.2 ≠ AuditReason.cancelled :=
  ⟨by
      have h := C10_dialog_exception_fallback.1 [bossFooZone, bossFooLock]
        (by simp)
      simpa using h,
    C10_dialog_exception_fallback.2 [bossFooZone, bossFooLock] "W" false 1000
      DedupState.init [mZoneFoo]⟩

/-- helper: members of a dropped range are at least the drop count -/
theorem mem_drop_range_le {n m x : Nat} (h : x ∈ (List.range n).drop m) :
    m ≤ x := by
  obtain ⟨i, hi, hx⟩ := List.mem_iff_getElem.mp h
  rw [List.getElem_drop] at hx
  rw [List.getElem_range] at hx
  omega

/-- Claim C8 (amended): the ingest gate never queues a raw line whose
content hash is already in the seen-line history (the line is dropped
silently and the history unchanged), and once the history exceeds its
2000-entry ceiling, the cleanup removes half of the entries — a half
determined by the hash set's unspecified iteration order, not necessarily
the oldest half — retaining `n - n/2` entries, all of which were in the
history.  (The original "removes the oldest half, retaining the most
recently seen half" is refuted by `C8_counterexample`.) -/
theorem C8_gate_and_eviction :
    (∀ (α : Type) [DecidableEq α] (seen : Finset α) (line : α),
      line ∈ seen → on_new_log_line seen line = (none, seen)) ∧
    (∀ (α : Type) (enum : List α), 2000 < enum.length →
      (cleanup_recently_processed_lines enum).length =
        enum.length - enum.length / 2 ∧
      ∀ x ∈ cleanup_recently_processed_lines enum, x ∈ enum) := by
  constructor
  · intro α _ seen line h
    simp [on_new_log_line, h]
  · intro α enum h
    rw [cleanup_recently_processed_lines, if_pos h]
    exact ⟨List.length_drop _ _, fun x hx => List.mem_of_mem_drop hx⟩

theorem C8_witness :
    on_new_log_line ({"x"} : Finset String) "x" =
      (none, ({"x"} : Finset String)) ∧
    ((cleanup_recently_processed_lines (List.range 2001)).length =
        (List.range 2001).length - (List.range 2001).length / 2 ∧
      ∀ x ∈ cleanup_recently_processed_lines (List.range 2001),
        x ∈ List.range 2001) :=
  ⟨C8_gate_and_eviction.1 String {"x"} "x" (Finset.mem_singleton_self "x"),
    C8_gate_and_eviction.2 Nat (List.range 2001) (by simp)⟩

set_option maxRecDepth 8000 in
/-- Counterexample to Claim C8 as stated: with insertion history
`0, 1, ..., 2000` and an admissible iteration order of the same Python
set, the cleanup retains entry `0` — the oldest entry — which is not in
the most recently seen half, so eviction does not remove the oldest half. -/
theorem C8_counterexample :
    IsEnumerationOf c8_enumeration c8_insertion_order.toFinset ∧
    0 ∈ cleanup_recently_processed_lines c8_enumeration ∧
    0 ∉ c8_insertion_order.drop (c8_insertion_order.length / 2) := by
  have hlen1 : ([1000] ++ (List.range 999).map (fun i => i + 1)).length = 1000 := by
    simp
  have hlen : c8_enumeration.length = 2001 := by
    simp [c8_enumeration]
  refine ⟨⟨?_, ?_⟩, ?_, ?_⟩
  · -- Nodup
    rw [c8_enumeration]
    rw [List.nodup_append, List.nodup_append, List.nodup_append]
    refine ⟨⟨by simp, ?_, ?_⟩, ⟨by simp, ?_, ?_⟩, ?_⟩
    · exact List.Nodup.map (fun a b hab => by omega) (List.nodup_range _)
    · intro a ha hb
      simp only [List.mem_singleton] at ha
      simp only [List.mem_map, List.mem_range] at hb
      omega
    · exact List.Nodup.map (fun a b hab => by omega) (List.nodup_range _)
    · intro a ha hb
      simp only [List.mem_singleton] at ha
      simp only [List.mem_map, List.mem_range] at hb
      omega
    · intro a ha hb
      simp only [List.mem_append, List.mem_singleton, List.mem_map,
        List.mem_range] at ha hb
      rcases ha with ha | ⟨i, hi, rfl⟩ <;> rcases hb with hb | ⟨j, hj, hji⟩ <;> omega
  · -- same underlying set as the insertion order
    ext x
    simp only [List.mem_toFinset, c8_enumeration, c8_insertion_order,
      List.mem_append, List.mem_singleton, List.mem_map, List.mem_range]
    constructor
    · rintro ((h | ⟨i, hi, rfl⟩) | (h | ⟨i, hi, rfl⟩)) <;> omega
    · intro hx
      by_cases h1 : x = 1000
      · exact Or.inl (Or.inl h1)
      by_cases h2 : x = 0
      · exact Or.inr (Or.inl h2)
      by_cases h3 : x ≤ 999
      · exact Or.inl (Or.inr ⟨x - 1, by omega, by omega⟩)
      · exact Or.inr (Or.inr ⟨x - 1001, by omega, by omega⟩)
  · -- the oldest entry (0) survives the cleanup
    rw [cleanup_recently_processed_lines, if_pos (by rw [hlen]; norm_num), hlen]
    show 0 ∈ c8_enumeration.drop 1000
    rw [c8_enumeration, List.drop_left' hlen1]
    simp
  · -- but 0 is not among the most recently inserted half
    simp only [c8_insertion_order, List.length_range]
    intro hmem
    have := mem_drop_range_le hmem
    omega

theorem readline_chunks_go_flatten (s : List Char) (acc : List Char) :
    (readline_chunks_go acc s).flatten = acc.reverse ++ s := by
  induction s generalizing acc with
  | nil =>
    by_cases h : acc = []
    · simp [readline_chunks_go, h]
    · simp [readline_chunks_go, h]
  | cons c rest ih =>
    by_cases hc : c = '\n'
    · simp [readline_chunks_go, hc, ih]
    · simp [readline_chunks_go, hc, ih]

theorem readline_chunks_go_shape (s : List Char) (acc : List Char)
    (hacc : '\n' ∉ acc) :
    ∀ ch ∈ readline_chunks_go acc s, ch ≠ [] ∧ '\n' ∉ ch.dropLast := by
  induction s generalizing acc with
  | nil =>
    intro ch hch
    by_cases h : acc = []
    · simp [readline_chunks_go, h] at hch
    · simp only [readline_chunks_go, if_neg h, List.mem_singleton] at hch
      subst hch
      constructor
      · simpa using h
      · intro hmem
        exact hacc (List.mem_reverse.mp (List.dropLast_subset _ hmem))
  | cons c rest ih =>
    intro ch hch
    simp only [readline_chunks_go] at hch
    by_cases hc : c = '\n'
    · rw [if_pos hc] at hch
      rcases List.mem_cons.mp hch with rfl | hch
      · constructor
        · simp
        · rw [List.dropLast_concat]
          intro hmem
          exact hacc (List.mem_reverse.mp hmem)
      · exact ih [] (by simp) ch hch
    · rw [if_neg hc] at hch
      refine ih (c :: acc) ?_ ch hch
      intro hmem
      rcases List.mem_cons.mp hmem with h | h
      · exact hc h.symm
      · exact hacc h

theorem readline_chunks_go_complete (s : List Char) (acc : List Char) :
    ∀ ch ∈ (readline_chunks_go acc s).dropLast, ch.getLast? = some '\n' := by
  induction s generalizing acc with
  | nil =>
    intro ch hch
    by_cases h : acc = []
    · simp [readline_chunks_go, h] at hch
    · simp only [readline_chunks_go, if_neg h] at hch
      simp at hch
  | cons c rest ih =>
    intro ch hch
    simp only [readline_chunks_go] at hch
    by_cases hc : c = '\n'
    · rw [if_pos hc] at hch
      cases hys : readline_chunks_go ([] : List Char) rest with
      | nil =>
        rw [hys] at hch
        simp at hch
      | cons y ys =>
        rw [hys] at hch
        rw [List.dropLast_cons₂] at hch
        rcases List.mem_cons.mp hch with rfl | hch2
        · exact List.getLast?_concat _
        · have hih := ih [] ch
          rw [hys] at hih
          exact hih hch2
    · rw [if_neg hc] at hch
      exact ih (c :: acc) ch hch

/-- Claim C7 (amended): on a polling tick the tailer reads everything from
the saved cursor to end-of-file and advances the cursor there; the data it
read is partitioned into `readline` chunks without loss or duplication
(their concatenation is exactly the data), every chunk except possibly the
last is newline-terminated with no interior newline, and the emitted lines
are those chunks stripped of trailing CR/LF with empty ones dropped — so
each complete appended line is emitted exactly once, but a non-empty
partial trailing line is emitted immediately rather than held
(see `C7_counterexample`). -/
theorem C7_read_semantics :
    (∀ data : List Char, (readline_chunks data).flatten = data) ∧
    (∀ data : List Char, ∀ ch ∈ readline_chunks data,
      ch ≠ [] ∧ '\n' ∉ ch.dropLast) ∧
    (∀ data : List Char, ∀ ch ∈ (readline_chunks data).dropLast,
      ch.getLast? = some '\n') ∧
    (∀ (fs : List FileEntry) (st : MonitorState) (name : String)
      (f : FileEntry), find_file fs name = some f →
      read_new_lines fs st name =
        ([MonitorEvent.readChunk name
            ((alist_lookup st.file_positions name).getD 0)
            (max ((alist_lookup st.file_positions name).getD 0)
              f.content.length)
            (emitted_lines (f.content.drop
              ((alist_lookup st.file_positions name).getD 0)))],
          { st with file_positions := (alist_insert st.file_positions name
              (max ((alist_lookup st.file_positions name).getD 0)
                f.content.length)) })) := by
  refine ⟨fun data => by simpa using readline_chunks_go_flatten data [],
    fun data => readline_chunks_go_shape data [] (by simp),
    fun data => readline_chunks_go_complete data [],
    fun fs st name f hf => ?_⟩
  simp [read_new_lines, hf]

theorem C7_witness :
    read_new_lines [c7_file] c7_state "log" =
      ([MonitorEvent.readChunk "log"
          ((alist_lookup c7_state.file_positions "log").getD 0)
          (max ((alist_lookup c7_state.file_positions "log").getD 0)
            c7_file.content.length)
          (emitted_lines (c7_file.content.drop
            ((alist_lookup c7_state.file_positions "log").getD 0)))],
        { c7_state with file_positions := (alist_insert c7_state.file_positions
            "log" (max ((alist_lookup c7_state.file_positions "log").getD 0)
              c7_file.content.length)) }) ∧
    (readline_chunks ['x', '\n', 'y']).flatten = ['x', '\n', 'y'] :=
  ⟨C7_read_semantics.2.2.2 [c7_file] c7_state "log" c7_file (by decide),
    C7_read_semantics.1 ['x', '\n', 'y']⟩

/-- Counterexample to Claim C7 as stated: a file containing only the
partial line `abc` (no terminating newline) has that partial line emitted
immediately, with the cursor advanced past it, instead of being held until
a later tick; and the empty complete line in `x\n\ny\n` is never
emitted. -/
theorem C7_counterexample :
    (read_new_lines [c7_file] c7_state "log").1 =
      [MonitorEvent.readChunk "log" 0 3 [['a', 'b', 'c']]] ∧
    emitted_lines ['x', '\n', '\n', 'y', '\n'] = [['x'], ['y']] := by
  constructor
  · decide
  · decide

theorem buffered_continue_dispatched (webhookUrl : String) (isDup : Bool)
    (now : Int) (st : DedupState) (reg all_bosses : List Boss) (boss : Boss)
    (sel : BossKillMessage) :
    ∀ d ∈ (buffered_continue webhookUrl isDup now st reg all_bosses boss
        sel).dispatched, d = sel := by
  intro d hd
  simp only [buffered_continue, KillResult.stopped] at hd
  split at hd
  · simp at hd
  · split at hd
    · rcases process_boss_kill_dispatched webhookUrl isDup now st reg boss sel
        with h | h
      · rw [h] at hd; simp at hd
      · rw [h] at hd; simp at hd; exact hd
    · simp at hd

theorem process_buffered_dispatched (reg : List Boss) (dialog : DialogOutcome)
    (webhookUrl : String) (isDup : Bool) (now : Int) (st : DedupState)
    (msgs : List BossKillMessage) (sel : BossKillMessage)
    (hsel : select_buffered_message msgs = some sel) :
    ∀ d ∈ (process_buffered_messages reg dialog webhookUrl isDup now st
        msgs).dispatched, d = sel := by
  intro d hd
  simp only [process_buffered_messages] at hd
  split at hd
  · rename_i heq
    rw [hsel] at heq
    exact absurd heq (by simp)
  · rename_i sel' heq
    rw [hsel] at heq
    injection heq with heq
    subst heq
    split at hd
    · simp at hd
    · split at hd
      · split at hd
        · simp at hd
        · exact buffered_continue_dispatched webhookUrl isDup now st reg _ _
            sel d (by simpa using hd)
      · split at hd
        · exact buffered_continue_dispatched webhookUrl isDup now st reg _ _
            sel d (by simpa using hd)
        · simp at hd

theorem buffered_continue_no_skip_audits (webhookUrl : String) (isDup : Bool)
    (now : Int) (st : DedupState) (reg all_bosses : List Boss) (boss : Boss)
    (sel : BossKillMessage) :
    (buffered_continue webhookUrl isDup now st reg all_bosses boss
        sel).audits.filter (fun pr => pr.2.isBufferSkipped) = [] := by
  rw [List.filter_eq_nil_iff]
  intro pr hpr
  rcases buffered_continue_audit_shape webhookUrl isDup now st reg all_bosses
    boss sel pr hpr with h | h | h | h | h | h | h | h
  all_goals simp [h, AuditReason.isBufferSkipped]

/-- Claim C1 (amended): when the buffer deadline fires, the winner is the
first zone-sourced event in arrival order if any exists, else the first
lockout-sourced event; every dispatched message is the winner; and the
events audited as skipped are exactly the buffered events whose parsed
value differs from the winner — a buffered duplicate value-equal to the
winner is neither dispatched nor audited (the universally quantified
"every non-winning buffered event is audited" is refuted by
`C1_counterexample`, since Python's dataclass `!=` compares by value). -/
theorem C1_window_preference (reg : List Boss) (dialog : DialogOutcome)
    (webhookUrl : String) (isDup : Bool) (now : Int) (st : DedupState)
    (msgs : List BossKillMessage) (w : BossKillMessage)
    (hsel : select_buffered_message msgs = some w) :
    ((msgs.filter (fun m => m.location != "Lockouts")) ≠ [] →
      (msgs.filter (fun m => m.location != "Lockouts")).head? = some w) ∧
    ((msgs.filter (fun m => m.location != "Lockouts")) = [] →
      (msgs.filter (fun m => m.location == "Lockouts")).head? = some w) ∧
    (∀ d ∈ (process_buffered_messages reg dialog webhookUrl isDup now st
        msgs).dispatched, d = w) ∧
    ((process_buffered_messages reg dialog webhookUrl isDup now st
        msgs).audits.filter (fun pr => pr.2.isBufferSkipped) =
      (skipped_buffered_messages msgs w).map
        (fun m => (m, AuditReason.bufferSkipped w.location))) ∧
    (∀ m ∈ skipped_buffered_messages msgs w,
      m ∉ (process_buffered_messages reg dialog webhookUrl isDup now st
        msgs).dispatched) := by
  have h3 := process_buffered_dispatched reg dialog webhookUrl isDup now st
    msgs w hsel
  refine ⟨?_, ?_, h3, ?_, ?_⟩
  · intro hne
    cases hg : msgs.filter (fun m => m.location != "Lockouts") with
    | nil => exact absurd hg hne
    | cons g gs =>
      simp only [select_buffered_message, hg] at hsel
      simpa using hsel
  · intro hg0
    simp only [select_buffered_message, hg0] at hsel
    simpa using hsel
  · -- the skip audits are exactly the value-distinct buffered events
    simp only [process_buffered_messages] at *
    split
    · rename_i heq
      rw [hsel] at heq
      exact absurd heq (by simp)
    · rename_i sel' heq
      rw [hsel] at heq
      injection heq with heq
      subst heq
      have hmapfilter :
          ∀ sa : List (BossKillMessage × AuditReason),
            sa = (skipped_buffered_messages msgs w).map
                (fun m => (m, AuditReason.bufferSkipped w.location)) →
            ∀ extra : List (BossKillMessage × AuditReason),
            extra.filter (fun pr => pr.2.isBufferSkipped) = [] →
            (sa ++ extra).filter (fun pr => pr.2.isBufferSkipped) =
              (skipped_buffered_messages msgs w).map
                (fun m => (m, AuditReason.bufferSkipped w.location)) := by
        intro sa hsa extra hextra
        subst hsa
        rw [List.filter_append, hextra, List.append_nil, List.filter_map]
        have : ((fun pr : BossKillMessage × AuditReason =>
            pr.2.isBufferSkipped) ∘
            (fun m => (m, AuditReason.bufferSkipped w.location))) =
            fun _ => true := by
          funext m
          simp [AuditReason.isBufferSkipped]
        rw [this, List.filter_true]
      split
      · exact hmapfilter _ rfl _ (by simp [AuditReason.isBufferSkipped])
      · split
        · split
          · exact hmapfilter _ rfl _ (by simp [AuditReason.isBufferSkipped])
          · exact hmapfilter _ rfl _
              (buffered_continue_no_skip_audits webhookUrl isDup now st reg _ _ w)
        · split
          · exact hmapfilter _ rfl _
              (buffered_continue_no_skip_audits webhookUrl isDup now st reg _ _ w)
          · exact hmapfilter _ rfl _ (by simp [AuditReason.isBufferSkipped])
  · intro m hm hmem
    have hmw := h3 m hmem
    have := (List.mem_filter.mp hm).2
    simp only [decide_eq_true_eq] at this
    exact this hmw

theorem C1_witness :
    select_buffered_message [mZoneSev, mLockSev] = some mZoneSev ∧
    (∀ d ∈ (process_buffered_messages [bossSev] .rejected "W" false 1000
        DedupState.init [mZoneSev, mLockSev]).dispatched, d = mZoneSev) :=
  ⟨by decide,
    (C1_window_preference [bossSev] .rejected "W" false 1000 DedupState.init
      [mZoneSev, mLockSev] mZoneSev (by decide)).2.2.1⟩

/-- Counterexample to Claim C1 as stated: a window holding two value-equal
zone-sourced events and one lockout-sourced event for the same target has
two non-winning buffered events but produces only one skipped audit entry
— the second zone copy is silently dropped, unaudited. -/
theorem C1_counterexample :
    ([mZoneSev, mZoneSev, mLockSev].filter
        (fun m => m.location != "Lockouts")).length = 2 ∧
    ([mZoneSev, mZoneSev, mLockSev].filter
        (fun m => m.location == "Lockouts")).length = 1 ∧
    (process_buffered_messages [bossSev] .rejected "W" false 1000
        DedupState.init [mZoneSev, mZoneSev, mLockSev]).dispatched =
      [mZoneSev] ∧
    ((process_buffered_messages [bossSev] .rejected "W" false 1000
        DedupState.init [mZoneSev, mZoneSev, mLockSev]).audits.filter
      (fun pr => pr.2.isBufferSkipped)).length = 1 := by
  decide

theorem process_boss_kill_dialog_fields (webhookUrl : String) (isDup : Bool)
    (now : Int) (st : DedupState) (reg : List Boss) (boss : Boss)
    (p : BossKillMessage) :
    (process_boss_kill webhookUrl isDup now st reg boss p).dialogCalls = 0 ∧
    (process_boss_kill webhookUrl isDup now st reg boss p).dialogCandidates
      = [] := by
  simp only [process_boss_kill, KillResult.stopped]
  split
  · simp
  · split
    · simp
    · split
      · simp
      · split
        · simp
        · split
          · simp
          · simp

theorem buffered_continue_dialog_fields (webhookUrl : String) (isDup : Bool)
    (now : Int) (st : DedupState) (reg all_bosses : List Boss) (boss : Boss)
    (sel : BossKillMessage) :
    (buffered_continue webhookUrl isDup now st reg all_bosses boss
        sel).dialogCalls = 0 ∧
    (buffered_continue webhookUrl isDup now st reg all_bosses boss
        sel).dialogCandidates = [] := by
  simp only [buffered_continue, KillResult.stopped]
  split
  · simp
  · split
    · exact process_boss_kill_dialog_fields webhookUrl isDup now st reg boss sel
    · simp

/-- Claim C3: for a kill event whose target name resolves to multiple
tracked-target records and for which the disambiguation prompt is shown
and yields no selection (cancelled), the event produces zero dispatches,
leaves the registry untouched (zero kill-count increments), and emits an
audit entry with the cancellation reason. -/
theorem C3_cancellation_fail_safe (reg : List Boss) (dialog : DialogOutcome)
    (webhookUrl : String) (isDup : Bool) (now : Int) (st : DedupState)
    (msgs : List BossKillMessage) (sel : BossKillMessage)
    (hsel : select_buffered_message msgs = some sel)
    (hex : exists_boss reg sel.monster = true)
    (hmulti : 1 < (get_bosses_by_name reg sel.monster).length)
    (htrig : 1 < ((get_bosses_by_name reg sel.monster).filter
        (fun b => py_strip b.note ≠ "")).length ∨
      sel.monster ∈ duplicate_boss_names)
    (hcancel : handle_duplicate_boss_selection dialog
        (get_bosses_by_name reg sel.monster) = none) :
    (process_buffered_messages reg dialog webhookUrl isDup now st
      msgs).dispatched = [] ∧
    (process_buffered_messages reg dialog webhookUrl isDup now st
      msgs).registry = reg ∧
    (sel, AuditReason.cancelled) ∈
      (process_buffered_messages reg dialog webhookUrl isDup now st
        msgs).audits := by
  simp only [process_buffered_messages]
  split
  · rename_i heq
    rw [hsel] at heq
    exact absurd heq (by simp)
  · rename_i sel' heq
    rw [hsel] at heq
    injection heq with heq
    subst heq
    split
    · rename_i hnex
      rw [hex] at hnex
      simp at hnex
    · split
      · split
        · simp
        · rename_i boss hsome
          rw [hcancel] at hsome
          exact absurd hsome (by simp)
      · rename_i hnotrig
        exfalso
        exact hnotrig ⟨hmulti, htrig⟩

theorem C3_witness :
    (process_buffered_messages [bossThallN, bossThallS] .rejected "W" false
      1000 DedupState.init [mZoneThall]).dispatched = [] ∧
    (process_buffered_messages [bossThallN, bossThallS] .rejected "W" false
      1000 DedupState.init [mZoneThall]).registry = [bossThallN, bossThallS] ∧
    (mZoneThall, AuditReason.cancelled) ∈
      (process_buffered_messages [bossThallN, bossThallS] .rejected "W" false
        1000 DedupState.init [mZoneThall]).audits :=
  C3_cancellation_fail_safe [bossThallN, bossThallS] .rejected "W" false 1000
    DedupState.init [mZoneThall] mZoneThall (by decide) (by decide) (by decide)
    (Or.inl (by decide)) (by decide)

/-- Claim C5 (amended): the disambiguation collaborator is invoked exactly
once, with all candidate records, whenever the winning event's name
matches more than one registry record AND at least two of those records
carry non-empty annotations or the name is one of the hardcoded duplicate
names; for multi-match events outside that condition no collaborator is
invoked at all (the unconditional claim is refuted by
`C5_counterexample`). -/
theorem C5_dialog_invocation (reg : List Boss) (dialog : DialogOutcome)
    (webhookUrl : String) (isDup : Bool) (now : Int) (st : DedupState)
    (msgs : List BossKillMessage) (sel : BossKillMessage)
    (hsel : select_buffered_message msgs = some sel)
    (hex : exists_boss reg sel.monster = true) :
    ((1 < (get_bosses_by_name reg sel.monster).length ∧
      (1 < ((get_bosses_by_name reg sel.monster).filter
          (fun b => py_strip b.note ≠ "")).length ∨
        sel.monster ∈ duplicate_boss_names)) →
      (process_buffered_messages reg dialog webhookUrl isDup now st
        msgs).dialogCalls = 1 ∧
      (process_buffered_messages reg dialog webhookUrl isDup now st
        msgs).dialogCandidates = [get_bosses_by_name reg sel.monster]) ∧
    (¬ (1 < (get_bosses_by_name reg sel.monster).length ∧
      (1 < ((get_bosses_by_name reg sel.monster).filter
          (fun b => py_strip b.note ≠ "")).length ∨
        sel.monster ∈ duplicate_boss_names)) →
      (process_buffered_messages reg dialog webhookUrl isDup now st
        msgs).dialogCalls = 0) := by
  simp only [process_buffered_messages]
  split
  · rename_i heq
    rw [hsel] at heq
    exact absurd heq (by simp)
  · rename_i sel' heq
    rw [hsel] at heq
    injection heq with heq
    subst heq
    split
    · rename_i hnex
      rw [hex] at hnex
      simp at hnex
    · split
      · rename_i htrig
        refine ⟨fun _ => ?_, fun hno => absurd htrig hno⟩
        split
        · simp
        · simp
      · rename_i hnotrig
        refine ⟨fun htrig => absurd htrig hnotrig, fun _ => ?_⟩
        split
        · rename_i boss hone
          exact (buffered_continue_dialog_fields webhookUrl isDup now st reg
            _ boss sel).1
        · simp

theorem C5_witness :
    (process_buffered_messages [bossThallN, bossThallS] (.accepted (some 0))
      "W" false 1000 DedupState.init [mZoneThall]).dialogCalls = 1 ∧
    (process_buffered_messages [bossThallN, bossThallS] (.accepted (some 0))
      "W" false 1000 DedupState.init [mZoneThall]).dialogCandidates =
      [get_bosses_by_name [bossThallN, bossThallS] mZoneThall.monster] :=
  (C5_dialog_invocation [bossThallN, bossThallS] (.accepted (some 0)) "W"
    false 1000 DedupState.init [mZoneThall] mZoneThall (by decide)
    (by decide)).1 ⟨by decide, Or.inl (by decide)⟩

/-- Counterexample to Claim C5 as stated: a name matching two tracked
records that carry no annotations (and is not a hardcoded duplicate name)
invokes the dialog zero times — the event is dropped with an error audit
instead of being disambiguated. -/
theorem C5_counterexample :
    (get_bosses_by_name [bossFooZone, bossFooLock] mZoneFoo.monster).length
      = 2 ∧
    (process_buffered_messages [bossFooZone, bossFooLock] (.accepted (some 0))
      "W" false 1000 DedupState.init [mZoneFoo]).dialogCalls = 0 ∧
    (process_buffered_messages [bossFooZone, bossFooLock] (.accepted (some 0))
      "W" false 1000 DedupState.init [mZoneFoo]).dispatched = [] ∧
    (mZoneFoo, AuditReason.errorBossNone) ∈
      (process_buffered_messages [bossFooZone, bossFooLock]
        (.accepted (some 0)) "W" false 1000 DedupState.init
        [mZoneFoo]).audits := by
  decide

/-- Claim C6: for events resolving to an existing registry name, the
registry's kill bookkeeping is performed exactly once per dispatched kill
and never otherwise: the total of kill counters grows by exactly the
number of dispatched messages (which is at most one); duplicate, disabled,
location-mismatch, cancelled and no-webhook outcomes leave it unchanged. -/
theorem C6_bookkeeping_iff_dispatch (reg : List Boss) (dialog : DialogOutcome)
    (webhookUrl : String) (isDup : Bool) (now : Int) (st : DedupState)
    (msgs : List BossKillMessage) (sel : BossKillMessage)
    (hsel : select_buffered_message msgs = some sel)
    (hex : exists_boss reg sel.monster = true) :
    total_kill_count (process_buffered_messages reg dialog webhookUrl isDup
        now st msgs).registry =
      total_kill_count reg +
        (process_buffered_messages reg dialog webhookUrl isDup now st
          msgs).dispatched.length ∧
    (process_buffered_messages reg dialog webhookUrl isDup now st
      msgs).dispatched.length ≤ 1 := by
  simp only [process_buffered_messages]
  split
  · rename_i heq
    rw [hsel] at heq
    exact absurd heq (by simp)
  · rename_i sel' heq
    rw [hsel] at heq
    injection heq with heq
    subst heq
    split
    · rename_i hnex
      rw [hex] at hnex
      simp at hnex
    · split
      · split
        · simp
        · rename_i boss hsome
          have hmem : boss ∈ reg :=
            (get_bosses_sublist reg sel.monster).mem
              (handle_selection_mem _ _ boss hsome)
          have := buffered_continue_total webhookUrl isDup now st reg
            (get_bosses_by_name reg sel.monster) boss sel hmem
          simpa using this
      · split
        · rename_i boss hone
          have hmemall : boss ∈ get_bosses_by_name reg sel.monster := by
            rw [hone]
            exact List.mem_singleton_self boss
          have hmem : boss ∈ reg := (get_bosses_sublist reg sel.monster).mem
            hmemall
          have := buffered_continue_total webhookUrl isDup now st reg
            (get_bosses_by_name reg sel.monster) boss sel hmem
          simpa using this
        · simp

theorem C6_witness :
    total_kill_count (process_buffered_messages [bossSev] .rejected "W" false
        1000 DedupState.init [mZoneSev, mLockSev]).registry =
      total_kill_count [bossSev] +
        (process_buffered_messages [bossSev] .rejected "W" false 1000
          DedupState.init [mZoneSev, mLockSev]).dispatched.length ∧
    (process_buffered_messages [bossSev] .rejected "W" false 1000
      DedupState.init [mZoneSev, mLockSev]).dispatched.length ≤ 1 :=
  C6_bookkeeping_iff_dispatch [bossSev] .rejected "W" false 1000
    DedupState.init [mZoneSev, mLockSev] mZoneSev (by decide) (by decide)

theorem mem_take_last {α : Type} {l : List α} {n : Nat} {x : α}
    (h : x ∈ take_last l n) : x ∈ l := by
  rw [take_last, List.mem_reverse] at h
  exact List.mem_reverse.mp (List.take_subset n _ h)

theorem early_reject_single (reg : List Boss) (p : BossKillMessage) (b : Boss)
    (hb : get_bosses_by_name reg p.monster = [b]) :
    early_location_reject reg p = none := by
  simp only [early_location_reject, hb]
  split
  · rfl
  · split
    · rw [if_neg]
      rintro ⟨h1, -⟩
      simp at h1
    · rfl

theorem select_single (m : BossKillMessage) :
    select_buffered_message [m] = some m := by
  simp only [select_buffered_message, List.filter_cons, List.filter_nil]
  cases hl : (m.location != "Lockouts") with
  | true =>
    simp [hl]
  | false =>
    have : (m.location == "Lockouts") = true := by
      simpa using hl
    simp [hl, this, Option.orElse]

theorem standalone_to_buffered (reg : List Boss) (dialog : DialogOutcome)
    (webhookUrl : String) (isDup : Bool) (u : Int) (st : DedupState)
    (e : BossKillMessage)
    (hkills : (e.timestamp, py_lower e.monster) ∉ st.recentlyProcessedKills)
    (hreject : early_location_reject reg e = none)
    (hrecent : ∀ q ∈ (alist_lookup st.recentKillsByMonster
        (py_lower e.monster)).getD [],
      ¬ (|e.timestamp - q.1| ≤ SAME_KILL_WINDOW_SECONDS)) :
    process_event_standalone reg dialog webhookUrl isDup u st e =
      process_buffered_messages reg dialog webhookUrl isDup u st [e] := by
  simp only [process_event_standalone, hreject, if_neg hkills]
  rw [if_neg]
  intro hany
  obtain ⟨q, hq, hdec⟩ := List.any_eq_true.mp hany
  exact hrecent q hq (by simpa using hdec)

theorem buffered_single_to_kill (reg : List Boss) (dialog : DialogOutcome)
    (webhookUrl : String) (isDup : Bool) (u : Int) (st : DedupState)
    (e : BossKillMessage) (b : Boss)
    (hb : get_bosses_by_name reg e.monster = [b]) (hen : b.enabled = true) :
    process_buffered_messages reg dialog webhookUrl isDup u st [e] =
      process_boss_kill webhookUrl isDup u st reg b e := by
  have hex : exists_boss reg e.monster = true :=
    (exists_boss_iff reg e.monster).mpr (by rw [hb]; simp)
  have hsel := select_single e
  simp only [process_buffered_messages, hsel, hb, hex,
    skipped_buffered_messages]
  rw [if_neg (by simp)]
  rw [if_neg (by rintro ⟨h1, -⟩; simp at h1)]
  simp only [buffered_continue, hen, if_true]
  rw [if_neg (by rintro ⟨h1, -⟩; simp at h1)]
  simp

theorem process_boss_kill_posts (webhookUrl : String) (isDup : Bool)
    (u : Int) (st : DedupState) (reg : List Boss) (b : Boss)
    (e : BossKillMessage)
    (hw : ¬ webhookUrl = "") (hdup : isDup = false)
    (hkills : (e.timestamp, py_lower e.monster) ∉ st.recentlyProcessedKills)
    (hrecent : ∀ q ∈ (alist_lookup st.recentKillsByMonster
        (py_lower e.monster)).getD [],
      ¬ (|e.timestamp - q.1| ≤ SAME_KILL_WINDOW_SECONDS))
    (hcool : ∀ last, alist_lookup st.lastDiscordPostTime (py_lower e.monster)
      = some last → ¬ (u - last < SAME_KILL_WINDOW_SECONDS)) :
    process_boss_kill webhookUrl isDup u st reg b e =
      ⟨[e], [(e, .posted)],
       ⟨(e.timestamp, py_lower e.monster) :: st.recentlyProcessedKills,
        alist_insert st.recentKillsByMonster (py_lower e.monster)
          (take_last
            ((((alist_lookup st.recentKillsByMonster
                (py_lower e.monster)).getD []) ++
              [(e.timestamp, e.location)]).filter
              (fun q => e.timestamp - 60 < q.1)) 3),
        alist_insert st.lastDiscordPostTime (py_lower e.monster) u⟩,
       increment_kill_count reg b e.timestamp, 0, [], none⟩ := by
  subst hdup
  simp only [process_boss_kill, if_neg hkills]
  rw [if_neg (by
    intro hany
    obtain ⟨q, hq, hdec⟩ := List.any_eq_true.mp hany
    exact hrecent q hq (by simpa using hdec))]
  rw [if_neg (by
    cases hlookup : alist_lookup st.lastDiscordPostTime (py_lower e.monster) with
    | none => simp
    | some last =>
      simp only
      intro hdec
      exact hcool last hlookup (by simpa using hdec))]
  rw [if_neg (by simp)]
  rw [if_neg hw]

theorem standalone_late (reg : List Boss) (dialog : DialogOutcome)
    (webhookUrl : String) (isDup : Bool) (u : Int) (st : DedupState)
    (e : BossKillMessage)
    (hkills : (e.timestamp, py_lower e.monster) ∉ st.recentlyProcessedKills)
    (hreject : early_location_reject reg e = none)
    (hdup : ∃ q ∈ (alist_lookup st.recentKillsByMonster
        (py_lower e.monster)).getD [],
      |e.timestamp - q.1| ≤ SAME_KILL_WINDOW_SECONDS) :
    process_event_standalone reg dialog webhookUrl isDup u st e =
      KillResult.stopped st reg e .lateDuplicateTimeWindow := by
  simp only [process_event_standalone, hreject, if_neg hkills]
  rw [if_pos]
  obtain ⟨q, hq, hle⟩ := hdup
  exact List.any_eq_true.mpr ⟨q, hq, by simpa using hle⟩

theorem get_bosses_replace_first (reg : List Boss) (m : String) (b nb : Boss)
    (hb : get_bosses_by_name reg m = [b])
    (hname : nb.name = b.name) :
    get_bosses_by_name (replace_first reg b nb) m = [nb] := by
  have hpb : (py_lower b.name == py_lower m) = true := by
    have : b ∈ get_bosses_by_name reg m := by rw [hb]; exact List.mem_singleton_self b
    exact (List.mem_filter.mp this).2
  induction reg with
  | nil => simp [get_bosses_by_name] at hb
  | cons x rest ih =>
    by_cases hx : x = b
    · subst hx
      rw [get_bosses_by_name, List.filter_cons, if_pos hpb] at hb
      injection hb with hb1 hb2
      rw [replace_first, if_pos rfl, get_bosses_by_name, List.filter_cons,
        if_pos (by rw [hname]; exact hpb)]
      have : get_bosses_by_name rest m = [] := hb2
      rw [get_bosses_by_name] at this
      rw [this]
    · rw [get_bosses_by_name, List.filter_cons] at hb
      rw [replace_first, if_neg hx, get_bosses_by_name, List.filter_cons]
      by_cases hpx : (py_lower x.name == py_lower m) = true
      · rw [if_pos hpx] at hb
        injection hb with hb1 hb2
        exact absurd hb1 hx
      · rw [if_neg hpx] at hb
        rw [if_neg hpx]
        exact ih hb

/-- Claim C2: for two kill events of the same (distinct-timestamp,
non-ambiguous, enabled, single-registry-entry) target processed standalone
with wall-clock spacing matching their log-timestamp spacing (live
tailing): the first dispatches; if the timestamps are less than
`SAME_KILL_WINDOW_SECONDS` apart the second is rejected as a time-window
duplicate (zero dispatches, audited); if they are at least 10 s apart the
second dispatches as well. -/
theorem C2_time_window_suppression (reg : List Boss) (b : Boss)
    (d1 d2 : DialogOutcome) (w : String) (u1 u2 : Int)
    (e1 e2 : BossKillMessage)
    (hb : get_bosses_by_name reg e1.monster = [b])
    (hmon : e2.monster = e1.monster)
    (hen : b.enabled = true)
    (hw : ¬ w = "")
    (hts : e1.timestamp ≠ e2.timestamp)
    (hlive : u2 - u1 = e2.timestamp - e1.timestamp) :
    (two_kill_run reg d1 d2 w u1 u2 e1 e2).1.dispatched = [e1] ∧
    (|e2.timestamp - e1.timestamp| < SAME_KILL_WINDOW_SECONDS →
      (two_kill_run reg d1 d2 w u1 u2 e1 e2).2.dispatched = [] ∧
      (e2, AuditReason.lateDuplicateTimeWindow) ∈
        (two_kill_run reg d1 d2 w u1 u2 e1 e2).2.audits) ∧
    (10 ≤ e2.timestamp - e1.timestamp →
      (two_kill_run reg d1 d2 w u1 u2 e1 e2).2.dispatched = [e2]) := by
  have h60 : e1.timestamp - 60 < e1.timestamp := by omega
  have hv : take_last ([(e1.timestamp, e1.location)].filter
      (fun q => decide (e1.timestamp - 60 < q.1))) 3 =
      [(e1.timestamp, e1.location)] := by
    simp [take_last, h60]
  have hr1 : process_event_standalone reg d1 w false u1 DedupState.init e1 =
      ⟨[e1], [(e1, .posted)],
       ⟨[(e1.timestamp, py_lower e1.monster)],
        [(py_lower e1.monster, [(e1.timestamp, e1.location)])],
        [(py_lower e1.monster, u1)]⟩,
       increment_kill_count reg b e1.timestamp, 0, [], none⟩ := by
    rw [standalone_to_buffered reg d1 w false u1 DedupState.init e1
        (by simp [DedupState.init]) (early_reject_single reg e1 b hb)
        (by simp [DedupState.init, alist_lookup]),
      buffered_single_to_kill reg d1 w false u1 DedupState.init e1 b hb hen,
      process_boss_kill_posts w false u1 DedupState.init reg b e1 hw rfl
        (by simp [DedupState.init])
        (by simp [DedupState.init, alist_lookup])
        (by simp [DedupState.init, alist_lookup])]
    simp [DedupState.init, alist_lookup, alist_insert, take_last, h60]
  set b2 : Boss := ⟨b.name, b.note, b.location, b.enabled, b.killCount + 1, some e1.timestamp⟩ with hb2def
  have hb2 : get_bosses_by_name (increment_kill_count reg b e1.timestamp)
      e2.monster = [b2] := by
    rw [hmon, increment_kill_count]
    exact get_bosses_replace_first reg e1.monster b b2 hb rfl
  have hkey : py_lower e2.monster = py_lower e1.monster := by rw [hmon]
  have hkills2 : (e2.timestamp, py_lower e2.monster) ∉
      [(e1.timestamp, py_lower e1.monster)] := by
    simp only [List.mem_singleton, Prod.mk.injEq, not_and]
    intro hcon
    exact absurd hcon.symm hts
  have hstep1 : (two_kill_run reg d1 d2 w u1 u2 e1 e2).1.dispatched = [e1] := by
    simp only [two_kill_run, hr1]
  have hlook2 : alist_lookup
      ([(py_lower e1.monster, [(e1.timestamp, e1.location)])] :
        List (String × List (Int × String))) (py_lower e2.monster) =
      some [(e1.timestamp, e1.location)] := by
    simp [alist_lookup, hkey]
  have h2eq : (two_kill_run reg d1 d2 w u1 u2 e1 e2).2 =
      process_event_standalone (increment_kill_count reg b e1.timestamp) d2 w
        false u2
        ⟨[(e1.timestamp, py_lower e1.monster)],
         [(py_lower e1.monster, [(e1.timestamp, e1.location)])],
         [(py_lower e1.monster, u1)]⟩ e2 := by
    simp only [two_kill_run, hr1]
  refine ⟨hstep1, ?_, ?_⟩
  · intro hlt
    have hlate : (two_kill_run reg d1 d2 w u1 u2 e1 e2).2 =
        KillResult.stopped
          ⟨[(e1.timestamp, py_lower e1.monster)],
           [(py_lower e1.monster, [(e1.timestamp, e1.location)])],
           [(py_lower e1.monster, u1)]⟩
          (increment_kill_count reg b e1.timestamp) e2
          .lateDuplicateTimeWindow := by
      rw [h2eq]
      refine standalone_late _ d2 w false u2 _ e2 hkills2
        (early_reject_single _ e2 b2 hb2) ?_
      refine ⟨(e1.timestamp, e1.location), ?_, le_of_lt hlt⟩
      rw [hlook2]
      simp
    rw [hlate]
    simp [KillResult.stopped]
  · intro h10
    have hrecent2 : ∀ q ∈ (alist_lookup
        ([(py_lower e1.monster, [(e1.timestamp, e1.location)])] :
          List (String × List (Int × String)))
        (py_lower e2.monster)).getD [],
        ¬ (|e2.timestamp - q.1| ≤ SAME_KILL_WINDOW_SECONDS) := by
      rw [hlook2]
      intro q hq
      simp only [Option.getD_some, List.mem_singleton] at hq
      subst hq
      rw [SAME_KILL_WINDOW_SECONDS, abs_le]
      omega
    have hcool2 : ∀ last, alist_lookup
        ([(py_lower e1.monster, u1)] : List (String × Int))
        (py_lower e2.monster) = some last →
        ¬ (u2 - last < SAME_KILL_WINDOW_SECONDS) := by
      intro last hlast
      have : last = u1 := by
        simp [alist_lookup, hkey] at hlast
        exact hlast.symm
      subst this
      rw [SAME_KILL_WINDOW_SECONDS]
      omega
    rw [h2eq,
      standalone_to_buffered _ d2 w false u2 _ e2 hkills2
        (early_reject_single _ e2 b2 hb2) hrecent2,
      buffered_single_to_kill _ d2 w false u2 _ e2 b2 hb2 (by
        rw [hb2def]
        exact hen),
      process_boss_kill_posts w false u2 _ _ b2 e2 hw rfl hkills2 hrecent2
        hcool2]

theorem alist_lookup_insert_self {α : Type} (l : List (String × α))
    (k : String) (v : α) : alist_lookup (alist_insert l k v) k = some v := by
  induction l with
  | nil => simp [alist_insert, alist_lookup]
  | cons p rest ih =>
    by_cases hp : p.1 = k
    · simp [alist_insert, alist_lookup, hp]
    · have hpb : (p.1 == k) = false := by simpa using hp
      simp only [alist_insert, hpb, Bool.false_eq_true, if_false]
      simpa [alist_lookup, List.find?_cons, hpb] using ih

theorem alist_lookup_insert_ne {α : Type} (l : List (String × α))
    (k k' : String) (v : α) (h : ¬ k = k') :
    alist_lookup (alist_insert l k v) k' = alist_lookup l k' := by
  induction l with
  | nil => simp [alist_insert, alist_lookup, h]
  | cons p rest ih =>
    by_cases hp : p.1 = k
    · have hk' : (k == k') = false := by simpa using h
      have hp' : (p.1 == k') = false := by simpa [hp] using h
      simp [alist_insert, alist_lookup, hp, List.find?_cons, hk', hp']
    · have hpb : (p.1 == k) = false := by simpa using hp
      simp only [alist_insert, hpb, Bool.false_eq_true, if_false]
      by_cases hq : p.1 = k'
      · simp [alist_lookup, List.find?_cons, hq]
      · have hqb : (p.1 == k') = false := by simpa using hq
        simpa [alist_lookup, List.find?_cons, hqb] using ih

theorem foldl_mtime_mem :
    ∀ (l : List FileEntry) (acc : Option FileEntry) (f : FileEntry),
    l.foldl (fun acc f =>
      match acc with
      | none => some f
      | some g => if f.mtime > g.mtime then some f else some g) acc = some f →
    (acc = some f) ∨ f ∈ l := by
  intro l
  induction l with
  | nil =>
    intro acc f h
    exact Or.inl (by simpa using h)
  | cons x rest ih =>
    intro acc f h
    rw [List.foldl_cons] at h
    rcases ih _ f h with hacc | hmem
    · cases acc with
      | none =>
        simp only at hacc
        injection hacc with hacc
        exact Or.inr (by rw [← hacc]; exact List.mem_cons_self x rest)
      | some a =>
        simp only at hacc
        split at hacc
        · injection hacc with hacc
          exact Or.inr (by rw [← hacc]; exact List.mem_cons_self x rest)
        · exact Or.inl hacc
    · exact Or.inr (List.mem_cons_of_mem x hmem)

theorem get_active_file_mem (files : List FileEntry) (f : FileEntry)
    (h : get_active_file files = some f) : f ∈ files := by
  rw [get_active_file] at h
  rcases foldl_mtime_mem files none f h with hacc | hmem
  · exact absurd hacc (by simp)
  · exact hmem

theorem find_file_mem (fs : List FileEntry) (name : String) (f : FileEntry)
    (h : find_file fs name = some f) : f ∈ fs ∧ f.name = name := by
  rw [find_file] at h
  refine ⟨List.mem_of_find?_eq_some h, ?_⟩
  have := List.find?_some h
  simpa using this

theorem fileok_unique {fs : List FileEntry} (hok : FileOk fs)
    {f g : FileEntry} (hf : f ∈ fs) (hg : g ∈ fs) (hname : f.name = g.name) :
    f = g := by
  rw [FileOk] at hok
  induction fs with
  | nil => exact absurd hf (List.not_mem_nil f)
  | cons x rest ih =>
    rw [List.map_cons, List.nodup_cons] at hok
    rcases List.mem_cons.mp hf with rfl | hf' <;>
      rcases List.mem_cons.mp hg with rfl | hg'
    · rfl
    · exfalso
      apply hok.1
      rw [hname]
      exact List.mem_map_of_mem FileEntry.name hg'
    · exfalso
      apply hok.1
      rw [← hname]
      exact List.mem_map_of_mem FileEntry.name hf'
    · exact ih hok.2 hf' hg'

theorem find_file_self {fs : List FileEntry} (hok : FileOk fs)
    {f : FileEntry} (hf : f ∈ fs) : find_file fs f.name = some f := by
  cases hfind : find_file fs f.name with
  | none =>
    exfalso
    rw [find_file, List.find?_eq_none] at hfind
    exact hfind f hf (by simp)
  | some g =>
    obtain ⟨hg, hgname⟩ := find_file_mem fs f.name g hfind
    rw [fileok_unique hok hf hg hgname.symm]

theorem mon_inv_positions_congr (fs : List FileEntry)
    (st st' : MonitorState) (evs : List MonitorEvent)
    (h : st'.file_positions = st.file_positions) (hinv : MonInv fs st evs) :
    MonInv fs st' evs := by
  obtain ⟨hpb, hpp, hev⟩ := hinv
  refine ⟨?_, ?_, ?_⟩
  · intro name p hp
    rw [h] at hp
    exact hpb name p hp
  · intro name p hp
    rw [h] at hp
    exact hpp name p hp
  · intro e he
    rw [h]
    exact hev e he

theorem inv_insert_step (fs : List FileEntry) (st st' : MonitorState)
    (evs : List MonitorEvent) (name : String) (v : Nat) (e : MonitorEvent)
    (hst' : st'.file_positions = alist_insert st.file_positions name v)
    (hinv : MonInv fs st evs)
    (hpresent : ∃ f ∈ fs, f.name = name)
    (hv : ∀ g ∈ fs, g.name = name → v ≤ g.content.length)
    (hefile : e.file = name) (hehi : e.hi ≤ v)
    (hlo : ∀ q, alist_lookup st.file_positions name = some q → q ≤ e.lo)
    (hqv : ∀ q, alist_lookup st.file_positions name = some q → q ≤ v) :
    MonInv fs st' (evs ++ [e]) ∧ (∀ a ∈ evs, MonitorRel a e) := by
  obtain ⟨hpb, hpp, hev⟩ := hinv
  have hcross : ∀ a ∈ evs, MonitorRel a e := by
    intro a ha hfile
    obtain ⟨q, hq, hle⟩ := hev a ha
    rw [hfile, hefile] at hq
    exact le_trans hle (hlo q hq)
  refine ⟨⟨?_, ?_, ?_⟩, hcross⟩
  · intro nm p hp g hg hgname
    rw [hst'] at hp
    by_cases hnm : name = nm
    · subst hnm
      rw [alist_lookup_insert_self] at hp
      injection hp with hp
      rw [← hp]
      exact hv g hg hgname
    · rw [alist_lookup_insert_ne _ _ _ _ hnm] at hp
      exact hpb nm p hp g hg hgname
  · intro nm p hp
    rw [hst'] at hp
    by_cases hnm : name = nm
    · subst hnm
      exact hpresent
    · rw [alist_lookup_insert_ne _ _ _ _ hnm] at hp
      exact hpp nm p hp
  · intro a ha
    rcases List.mem_append.mp ha with ha | ha
    · obtain ⟨q, hq, hle⟩ := hev a ha
      rw [hst']
      by_cases hnm : name = a.file
      · refine ⟨v, ?_, ?_⟩
        · rw [← hnm, alist_lookup_insert_self]
        · rw [← hnm] at hq
          exact le_trans hle (hqv q hq)
      · refine ⟨q, ?_, hle⟩
        rw [alist_lookup_insert_ne _ _ _ _ hnm]
        exact hq
    · simp only [List.mem_singleton] at ha
      subst ha
      rw [hst', hefile]
      exact ⟨v, alist_lookup_insert_self _ _ _, hehi⟩

theorem read_phase (fs : List FileEntry) (st1 : MonitorState)
    (evs' : List MonitorEvent) (name : String) (hok : FileOk fs)
    (hinv1 : MonInv fs st1 evs') :
    MonInv fs (read_new_lines fs st1 name).2
      (evs' ++ (read_new_lines fs st1 name).1) ∧
    (∀ a ∈ evs', ∀ b ∈ (read_new_lines fs st1 name).1, MonitorRel a b) ∧
    (read_new_lines fs st1 name).1.Pairwise MonitorRel := by
  cases hfind : find_file fs name with
  | none =>
    simp only [read_new_lines, hfind]
    exact ⟨by simpa using hinv1, by simp, by simp⟩
  | some f =>
    obtain ⟨hfmem, hfname⟩ := find_file_mem fs name f hfind
    have hple : (alist_lookup st1.file_positions name).getD 0 ≤
        f.content.length := by
      cases hlk : alist_lookup st1.file_positions name with
      | none => simp
      | some q =>
        have := hinv1.1 name q hlk f hfmem hfname
        simpa [hlk] using this
    simp only [read_new_lines, hfind]
    have step := inv_insert_step fs st1
      { st1 with file_positions := (alist_insert st1.file_positions name
          (max ((alist_lookup st1.file_positions name).getD 0)
            f.content.length)) }
      evs' name
      (max ((alist_lookup st1.file_positions name).getD 0) f.content.length)
      (MonitorEvent.readChunk name
        ((alist_lookup st1.file_positions name).getD 0)
        (max ((alist_lookup st1.file_positions name).getD 0) f.content.length)
        (emitted_lines (f.content.drop
          ((alist_lookup st1.file_positions name).getD 0))))
      rfl hinv1 ⟨f, hfmem, hfname⟩
      (fun g hg hgname => by
        rw [fileok_unique hok hg hfmem (hgname.trans hfname.symm)]
        omega)
      rfl (le_refl _)
      (fun q hq => by simp [MonitorEvent.lo, hq])
      (fun q hq => by simp [hq])
    refine ⟨step.1, ?_, by simp⟩
    intro a ha b hb
    simp only [List.mem_singleton] at hb
    subst hb
    exact step.2 a ha

theorem monitor_tick_preserves (fs : List FileEntry) (st : MonitorState)
    (evs : List MonitorEvent) (hok : FileOk fs) (hinv : MonInv fs st evs) :
    MonInv fs (monitor_tick fs true st).2 (evs ++ (monitor_tick fs true st).1) ∧
    (∀ a ∈ evs, ∀ b ∈ (monitor_tick fs true st).1, MonitorRel a b) ∧
    (monitor_tick fs true st).1.Pairwise MonitorRel := by
  by_cases hcond : (st.check_counter + 1 ≥ 10 ∨ st.active_file = none)
  · cases hget : get_active_file fs with
    | some f =>
      have hfmem : f ∈ fs := get_active_file_mem fs f hget
      by_cases hch : st.active_file ≠ some f.name
      · -- activation: seek the new active file to end-of-file
        have htick : monitor_tick fs true st =
            ([MonitorEvent.activated f.name f.content.length] ++
              (read_new_lines fs
                ⟨some f.name,
                 alist_insert st.file_positions f.name f.content.length, 0⟩
                f.name).1,
             (read_new_lines fs
                ⟨some f.name,
                 alist_insert st.file_positions f.name f.content.length, 0⟩
                f.name).2) := by
          simp only [monitor_tick, hget, if_pos hcond, if_pos hch, Bool.cond_true]
        have hact := inv_insert_step fs st
          ⟨some f.name, alist_insert st.file_positions f.name
            f.content.length, 0⟩
          evs f.name f.content.length
          (MonitorEvent.activated f.name f.content.length) rfl hinv
          ⟨f, hfmem, rfl⟩
          (fun g hg hgname => by
            rw [fileok_unique hok hg hfmem hgname])
          rfl (le_refl _)
          (fun q hq => hinv.1 f.name q hq f hfmem rfl)
          (fun q hq => hinv.1 f.name q hq f hfmem rfl)
        have hread := read_phase fs
          ⟨some f.name, alist_insert st.file_positions f.name
            f.content.length, 0⟩
          (evs ++ [MonitorEvent.activated f.name f.content.length]) f.name
          hok hact.1
        rw [htick]
        refine ⟨?_, ?_, ?_⟩
        · rw [← List.append_assoc]
          exact hread.1
        · intro a ha b hb
          rcases List.mem_append.mp hb with hb | hb
          · simp only [List.mem_singleton] at hb
            subst hb
            exact hact.2 a ha
          · exact hread.2.1 a (List.mem_append_left _ ha) b hb
        · refine List.pairwise_append.mpr ⟨List.pairwise_singleton _ _,
            hread.2.2, ?_⟩
          intro x hx y hy
          simp only [List.mem_singleton] at hx
          subst hx
          exact hread.2.1 _ (List.mem_append_right _ (by simp)) y hy
      · -- active file unchanged
        rw [not_not] at hch
        have hge : st.check_counter + 1 ≥ 10 := by
          rcases hcond with hge | hnone
          · exact hge
          · rw [hch] at hnone
            exact absurd hnone (by simp)
        have htick : monitor_tick fs true st =
            ((read_new_lines fs
                { st with check_counter := 0 } f.name).1,
             (read_new_lines fs
                { st with check_counter := 0 } f.name).2) := by
          simp only [monitor_tick, hget, hch]
          rw [if_pos (Or.inl hge), if_neg (by simp)]
          simp
        have hinv0 : MonInv fs { st with check_counter := 0 } evs :=
          mon_inv_positions_congr fs st _ evs rfl hinv
        have hread := read_phase fs { st with check_counter := 0 } evs f.name
          hok hinv0
        rw [htick]
        exact ⟨hread.1, fun a ha b hb => hread.2.1 a ha b hb, hread.2.2⟩
    | none =>
      have htick : monitor_tick fs true st =
          ([], { st with active_file := none, check_counter := 0 }) := by
        simp only [monitor_tick, hget, if_pos hcond]
      rw [htick]
      exact ⟨by simpa using
          mon_inv_positions_congr fs st _ evs rfl hinv,
        by simp, by simp⟩
  · -- no active-file check on this tick
    have hsome : ∃ name, st.active_file = some name := by
      cases ha : st.active_file with
      | none => exact absurd (Or.inr ha) hcond
      | some name => exact ⟨name, rfl⟩
    obtain ⟨name, ha⟩ := hsome
    have hlt : ¬ st.check_counter + 1 ≥ 10 := fun hge => hcond (Or.inl hge)
    have htick : monitor_tick fs true st =
        ((read_new_lines fs
            { st with check_counter := st.check_counter + 1 } name).1,
         (read_new_lines fs
            { st with check_counter := st.check_counter + 1 } name).2) := by
      simp only [monitor_tick, ha]
      rw [if_neg (by simp [hlt])]
      simp
    have hinv0 : MonInv fs { st with check_counter := st.check_counter + 1 }
        evs := mon_inv_positions_congr fs st _ evs rfl hinv
    have hread := read_phase fs
      { st with check_counter := st.check_counter + 1 } evs name hok hinv0
    rw [htick]
    exact ⟨hread.1, fun a ha' b hb => hread.2.1 a ha' b hb, hread.2.2⟩

theorem inv_transport (fs fs' : List FileEntry) (st : MonitorState)
    (evs : List MonitorEvent) (hok' : FileOk fs') (hg : grows fs fs')
    (hinv : MonInv fs st evs) : MonInv fs' st evs := by
  obtain ⟨hpb, hpp, hev⟩ := hinv
  refine ⟨?_, ?_, hev⟩
  · intro name p hp g hgmem hgname
    obtain ⟨f, hf, hfname⟩ := hpp name p hp
    obtain ⟨f', hf', hfname', hpre⟩ := hg f hf
    have hgf : g = f' := fileok_unique hok' hgmem hf'
      (by rw [hgname, hfname', hfname])
    subst hgf
    have h1 : p ≤ f.content.length := hpb name p hp f hf hfname
    have h2 : f.content.length ≤ g.content.length := hpre.length_le
    omega
  · intro name p hp
    obtain ⟨f, hf, hfname⟩ := hpp name p hp
    obtain ⟨f', hf', hfname', -⟩ := hg f hf
    exact ⟨f', hf', by rw [hfname', hfname]⟩

theorem run_monitor_from_pairwise :
    ∀ (trace : List (List FileEntry × Bool)) (st : MonitorState)
      (evs : List MonitorEvent),
    (∀ t ∈ trace, FileOk t.1) →
    trace.Chain' (fun a b => grows a.1 b.1) →
    (∀ t ∈ trace, t.2 = true) →
    (∀ t, trace.head? = some t → MonInv t.1 st evs) →
    evs.Pairwise MonitorRel →
    (evs ++ run_monitor_from st trace).Pairwise MonitorRel := by
  intro trace
  induction trace with
  | nil =>
    intro st evs _ _ _ _ hpw
    simpa [run_monitor_from] using hpw
  | cons t rest ih =>
    intro st evs hok hchain hseeks hhead hpw
    obtain ⟨fs, ok⟩ := t
    have hok2 : ok = true := hseeks (fs, ok) (by simp)
    subst hok2
    have hinv : MonInv fs st evs := hhead (fs, true) rfl
    have hstep := monitor_tick_preserves fs st evs (hok (fs, true) (by simp))
      hinv
    have hpw' : (evs ++ (monitor_tick fs true st).1).Pairwise MonitorRel :=
      List.pairwise_append.mpr ⟨hpw, hstep.2.2, hstep.2.1⟩
    have hrun : run_monitor_from st ((fs, true) :: rest) =
        (monitor_tick fs true st).1 ++
          run_monitor_from (monitor_tick fs true st).2 rest := rfl
    rw [hrun, ← List.append_assoc]
    refine ih (monitor_tick fs true st).2
      (evs ++ (monitor_tick fs true st).1)
      (fun g hgmem => hok g (List.mem_cons_of_mem _ hgmem))
      (List.Chain'.tail hchain)
      (fun g hgmem => hseeks g (List.mem_cons_of_mem _ hgmem)) ?_ hpw'
    intro t2 ht2
    cases rest with
    | nil => simp at ht2
    | cons a b =>
      have ha : a = t2 := by simpa using ht2
      subst ha
      have hg : grows fs a.1 := (List.chain'_cons.mp hchain).1
      exact inv_transport fs a.1 _ _ (hok a (by simp)) hg hstep.1

theorem read_static (fs : List FileEntry) (st : MonitorState) (name : String)
    (c : List Char) (rname : String)
    (hstat : ∀ f ∈ fs, f.name = name → f.content = c)
    (hpos : ∀ p, alist_lookup st.file_positions name = some p →
      c.length ≤ p)
    (hrp : rname = name →
      ∃ p0, alist_lookup st.file_positions rname = some p0) :
    (∀ e ∈ (read_new_lines fs st rname).1, e.file = name →
      e.linesOf = []) ∧
    (∀ p, alist_lookup (read_new_lines fs st rname).2.file_positions name =
      some p → c.length ≤ p) := by
  cases hfind : find_file fs rname with
  | none =>
    simp only [read_new_lines, hfind]
    exact ⟨by simp, hpos⟩
  | some f =>
    obtain ⟨hfmem, hfname⟩ := find_file_mem fs rname f hfind
    simp only [read_new_lines, hfind]
    by_cases hrn : rname = name
    · subst hrn
      obtain ⟨p0, hp0⟩ := hrp rfl
      have hcle : c.length ≤ p0 := hpos p0 hp0
      have hfc : f.content = c := hstat f hfmem hfname
      constructor
      · intro e he _
        simp only [List.mem_singleton] at he
        subst he
        simp only [MonitorEvent.linesOf]
        rw [hfc, hp0]
        simp only [Option.getD_some]
        rw [List.drop_eq_nil_of_le hcle]
        rfl
      · intro p hp
        rw [alist_lookup_insert_self] at hp
        injection hp with hp
        rw [← hp, hp0]
        simp only [Option.getD_some]
        omega
    · constructor
      · intro e he hname
        simp only [List.mem_singleton] at he
        subst he
        simp only [MonitorEvent.file] at hname
        exact absurd hname hrn
      · intro p hp
        rw [alist_lookup_insert_ne _ _ _ _ hrn] at hp
        exact hpos p hp

theorem active_positioned_insert (st : MonitorState) (k : String) (v : Nat)
    (st' : MonitorState)
    (hact : st'.active_file = st.active_file)
    (hpos : st'.file_positions = alist_insert st.file_positions k v)
    (hap : ActivePositioned st) : ActivePositioned st' := by
  intro n hn
  rw [hact] at hn
  obtain ⟨p, hp⟩ := hap n hn
  rw [hpos]
  by_cases hk : k = n
  · subst hk
    exact ⟨v, alist_lookup_insert_self _ _ _⟩
  · exact ⟨p, by rw [alist_lookup_insert_ne _ _ _ _ hk]; exact hp⟩

theorem read_active_positioned (fs : List FileEntry) (st : MonitorState)
    (rname : String) (hap : ActivePositioned st) :
    ActivePositioned (read_new_lines fs st rname).2 := by
  cases hfind : find_file fs rname with
  | none =>
    simpa [read_new_lines, hfind] using hap
  | some f =>
    simp only [read_new_lines, hfind]
    exact active_positioned_insert st rname _ _ rfl rfl hap

theorem monitor_tick_static (fs : List FileEntry) (st : MonitorState)
    (name : String) (c : List Char)
    (hstat : ∀ f ∈ fs, f.name = name → f.content = c)
    (hpos : ∀ p, alist_lookup st.file_positions name = some p →
      c.length ≤ p)
    (hap : ActivePositioned st) :
    (∀ e ∈ (monitor_tick fs true st).1, e.file = name → e.linesOf = []) ∧
    (∀ p, alist_lookup (monitor_tick fs true st).2.file_positions name = some p →
      c.length ≤ p) ∧
    ActivePositioned (monitor_tick fs true st).2 := by
  by_cases hcond : (st.check_counter + 1 ≥ 10 ∨ st.active_file = none)
  · cases hget : get_active_file fs with
    | some f =>
      have hfmem : f ∈ fs := get_active_file_mem fs f hget
      by_cases hch : st.active_file ≠ some f.name
      · have htick : monitor_tick fs true st =
            ([MonitorEvent.activated f.name f.content.length] ++
              (read_new_lines fs
                ⟨some f.name,
                 alist_insert st.file_positions f.name f.content.length, 0⟩
                f.name).1,
             (read_new_lines fs
                ⟨some f.name,
                 alist_insert st.file_positions f.name f.content.length, 0⟩
                f.name).2) := by
          simp only [monitor_tick, hget, if_pos hcond, if_pos hch, Bool.cond_true]
        set st1 : MonitorState :=
          ⟨some f.name, alist_insert st.file_positions f.name
            f.content.length, 0⟩ with hst1
        have hpos1 : ∀ p, alist_lookup st1.file_positions name = some p →
            c.length ≤ p := by
          intro p hp
          rw [hst1] at hp
          by_cases hfn : f.name = name
          · rw [hfn] at hp
            rw [alist_lookup_insert_self] at hp
            injection hp with hp
            rw [← hp, hstat f hfmem hfn]
          · rw [alist_lookup_insert_ne _ _ _ _ hfn] at hp
            exact hpos p hp
        have hap1 : ActivePositioned st1 := by
          intro n hn
          simp only [hst1] at hn ⊢
          injection hn with hn
          subst hn
          exact ⟨f.content.length, alist_lookup_insert_self _ _ _⟩
        have hread := read_static fs st1 name c f.name hstat hpos1
          (fun _ => hap1 f.name rfl)
        rw [htick]
        refine ⟨?_, hread.2, read_active_positioned fs st1 f.name hap1⟩
        intro e he hname
        rcases List.mem_append.mp he with he | he
        · simp only [List.mem_singleton] at he
          subst he
          rfl
        · exact hread.1 e he hname
      · rw [not_not] at hch
        have hge : st.check_counter + 1 ≥ 10 := by
          rcases hcond with hge | hnone
          · exact hge
          · rw [hch] at hnone
            exact absurd hnone (by simp)
        have htick : monitor_tick fs true st =
            ((read_new_lines fs
                { st with check_counter := 0 } f.name).1,
             (read_new_lines fs
                { st with check_counter := 0 } f.name).2) := by
          simp only [monitor_tick, hget, hch]
          rw [if_pos (Or.inl hge), if_neg (by simp)]
          simp
        have hap0 : ActivePositioned { st with check_counter := 0 } := by
          intro n hn
          exact hap n hn
        have hread := read_static fs { st with check_counter := 0 } name c
          f.name hstat hpos (fun _ => hap0 f.name hch)
        rw [htick]
        exact ⟨hread.1, hread.2,
          read_active_positioned fs _ f.name hap0⟩
    | none =>
      have htick : monitor_tick fs true st =
          ([], { st with active_file := none, check_counter := 0 }) := by
        simp only [monitor_tick, hget, if_pos hcond]
      rw [htick]
      refine ⟨by simp, hpos, ?_⟩
      intro n hn
      simp at hn
  · have hlt : ¬ st.check_counter + 1 ≥ 10 := fun hge => hcond (Or.inl hge)
    have hsome : ∃ n, st.active_file = some n := by
      cases ha : st.active_file with
      | none => exact absurd (Or.inr ha) hcond
      | some n => exact ⟨n, rfl⟩
    obtain ⟨n, ha⟩ := hsome
    have htick : monitor_tick fs true st =
        ((read_new_lines fs
            { st with check_counter := st.check_counter + 1 } n).1,
         (read_new_lines fs
            { st with check_counter := st.check_counter + 1 } n).2) := by
      simp only [monitor_tick, ha]
      rw [if_neg (by simp [hlt])]
      simp
    have hap0 : ActivePositioned
        { st with check_counter := st.check_counter + 1 } := by
      intro m hm
      exact hap m hm
    have hread := read_static fs
      { st with check_counter := st.check_counter + 1 } name c n hstat hpos
      (fun _ => hap0 n ha)
    rw [htick]
    exact ⟨hread.1, hread.2, read_active_positioned fs _ n hap0⟩

theorem run_monitor_static :
    ∀ (trace : List (List FileEntry × Bool)) (st : MonitorState)
      (name : String) (c : List Char),
    StaticContent trace name c →
    (∀ t ∈ trace, t.2 = true) →
    (∀ p, alist_lookup st.file_positions name = some p → c.length ≤ p) →
    ActivePositioned st →
    ∀ e ∈ run_monitor_from st trace, e.file = name → e.linesOf = [] := by
  intro trace
  induction trace with
  | nil =>
    intro st name c _ _ _ _ e he
    simp [run_monitor_from] at he
  | cons t rest ih =>
    intro st name c hstatic hseeks hpos hap e he hname
    obtain ⟨fs, ok⟩ := t
    have hok2 : ok = true := hseeks (fs, ok) (by simp)
    subst hok2
    have hstat : ∀ f ∈ fs, f.name = name → f.content = c :=
      fun f hf => hstatic (fs, true) (by simp) f hf
    have hstep := monitor_tick_static fs st name c hstat hpos hap
    have hrun : run_monitor_from st ((fs, true) :: rest) =
        (monitor_tick fs true st).1 ++
          run_monitor_from (monitor_tick fs true st).2 rest := rfl
    rw [hrun] at he
    rcases List.mem_append.mp he with he | he
    · exact hstep.1 e he hname
    · exact ih (monitor_tick fs true st).2 name c
        (fun g hg => hstatic g (List.mem_cons_of_mem _ hg))
        (fun g hg => hseeks g (List.mem_cons_of_mem _ hg))
        hstep.2.1 hstep.2.2 e he hname

/-- Claim C4 (amended): over any well-formed, append-only directory trace
in which every activation end-seek succeeds (no transient I/O failure
while seeking the newly active file), the tailer's events on a common
file have pairwise ordered, disjoint byte ranges — an activation seek
(positioned at end-of-file) is never followed by a read starting before
it, and no byte consumed by one read is ever read again, so no line is
re-emitted after a file switch — and a file whose content never changes
during the trace (a pre-existing file) never has any line emitted.  The
unconditional claim is refuted by `C4_counterexample`: when the end-seek
raises, the `except` fallback records cursor 0 and the pre-existing
content is emitted. -/
theorem C4_rotation_safety (trace : List (List FileEntry × Bool))
    (hok : WellFormedTrace trace) (hgrow : AppendOnlyTrace trace)
    (hseeks : AllSeeksOk trace) :
    (run_monitor trace).Pairwise MonitorRel ∧
    (∀ (name : String) (c : List Char), StaticContent trace name c →
      ∀ e ∈ run_monitor trace, e.file = name → e.linesOf = []) := by
  have hchain : trace.Chain' (fun a b => grows a.1 b.1) :=
    (List.chain'_map Prod.fst).mp hgrow
  constructor
  · have := run_monitor_from_pairwise trace MonitorState.init []
      hok hchain hseeks
      (fun t _ => ⟨by
          intro nm p hp
          simp [MonitorState.init, alist_lookup] at hp,
        by
          intro nm p hp
          simp [MonitorState.init, alist_lookup] at hp,
        by
          intro e he
          simp at he⟩)
      (by simp)
    simpa [run_monitor] using this
  · intro name c hstatic e he hname
    refine run_monitor_static trace MonitorState.init name c hstatic hseeks
      ?_ ?_ e he hname
    · intro p hp
      simp [MonitorState.init, alist_lookup] at hp
    · intro n hn
      simp [MonitorState.init] at hn

theorem c4_trace_append_only : AppendOnlyTrace c4_trace := by
  rw [AppendOnlyTrace, c4_trace]
  simp only [List.map_cons, List.map_nil]
  refine List.chain'_cons.mpr ⟨by decide, List.chain'_cons.mpr
    ⟨by decide, List.chain'_singleton _⟩⟩

theorem C4_witness :
    WellFormedTrace c4_trace ∧ AppendOnlyTrace c4_trace ∧
    AllSeeksOk c4_trace ∧
    ((run_monitor c4_trace).Pairwise MonitorRel ∧
      (∀ (name : String) (c : List Char), StaticContent c4_trace name c →
        ∀ e ∈ run_monitor c4_trace, e.file = name → e.linesOf = [])) :=
  ⟨by decide, c4_trace_append_only, by decide,
    C4_rotation_safety c4_trace (by decide) c4_trace_append_only
      (by decide)⟩

/-- Counterexample to Claim C4 as stated: a well-formed, append-only trace
whose single activation end-seek fails (`log_monitor.py`'s `except`
fallback) records cursor 0 for the newly active pre-existing file, and
the same tick's read consumes it from offset 0, emitting both lines that
existed before activation — so the cited universal guarantee does not
cover the error path the source itself provides for. -/
theorem C4_counterexample :
    WellFormedTrace c4_fail_trace ∧ AppendOnlyTrace c4_fail_trace ∧
    StaticContent c4_fail_trace "log" ['a', '\n', 'b', '\n'] ∧
    run_monitor c4_fail_trace =
      [MonitorEvent.activated "log" 0,
       MonitorEvent.readChunk "log" 0 4 [['a'], ['b']]] := by
  refine ⟨by decide, ?_, by decide, by decide⟩
  rw [AppendOnlyTrace, c4_fail_trace]
  simp only [List.map_cons, List.map_nil]
  exact List.chain'_singleton _

theorem C2_witness :
    (two_kill_run [bossSev] .rejected .rejected "W" 1000 1010 mZoneSev
      mZoneSev10).1.dispatched = [mZoneSev] ∧
    (|mZoneSev10.timestamp - mZoneSev.timestamp| < SAME_KILL_WINDOW_SECONDS →
      (two_kill_run [bossSev] .rejected .rejected "W" 1000 1010 mZoneSev
        mZoneSev10).2.dispatched = [] ∧
      (mZoneSev10, AuditReason.lateDuplicateTimeWindow) ∈
        (two_kill_run [bossSev] .rejected .rejected "W" 1000 1010 mZoneSev
          mZoneSev10).2.audits) ∧
    (10 ≤ mZoneSev10.timestamp - mZoneSev.timestamp →
      (two_kill_run [bossSev] .rejected .rejected "W" 1000 1010 mZoneSev
        mZoneSev10).2.dispatched = [mZoneSev10]) :=
  C2_time_window_suppression [bossSev] bossSev .rejected .rejected "W" 1000
    1010 mZoneSev mZoneSev10 (by decide) (by decide) (by decide) (by decide)
    (by decide) (by decide)
